import Mathlib

/-!
Shallow embedding of sys/uvm/pmap/pmap_segtab.c (NetBSD, pmap_segtab.c rev 1.28),
the software page-table directory manager, together with proofs about its
operations.

Configuration modelled: `_LP64` (three-level directory), no `MULTIPROCESSOR`
(the compare-and-swap publications degrade to plain stores, exactly as in the
preprocessed uniprocessor source), `PMAP_PTP_CACHE` defined (the leaf-page
cache `ptp_pgflist` is present), `DEBUG` off (the `pmap_check_stb` /
`pmap_check_ptes` loops compile to nothing; `KASSERT` is a no-op).

Platform constants are not part of this file's source (they come from the
machine-dependent pmap.h); we fix a coherent miniature platform that satisfies
every relation the code relies on:
  PAGE_SIZE = NBPG = 32 bytes, PGSHIFT = 5,
  a pt_entry_t is 8 bytes, so NPTEPG = NBPG / 8 = 4 and SEGSHIFT = 7,
  PMAP_SEGTABSIZE = NSEGPG = NBPG / 8 = 4, XSEGSHIFT = 9,
  NBSEG = 1 <<< SEGSHIFT = 128, NBXSEG = 1 <<< XSEGSHIFT = 512.
The compile-time assertion of the source, CTASSERT(NBPG >= sizeof(pmap_segtab_t)),
holds: sizeof(pmap_segtab_t) = PMAP_SEGTABSIZE * 8 = 32 = NBPG.  Consequently
pmap_segtab_alloc's sibling-carving branch (n = NBPG / sizeof(*stb) = 1, so
n > 1 is false) is dead code on this platform and is omitted from the model.

Memory model: pool pages are identified by Nat handles drawn from a fresh
counter.  A segtab handle x has contents segmem x (an array of
PMAP_SEGTABSIZE optional pointers, the union of seg_tab[] / seg_seg[] of the
source); a leaf-page handle pg has contents ptemem pg (an array of NPTEPG PTE
words).  The kernel direct-map address of a leaf page, in pt_entry_t-sized
units (bytes / 8), is pg * NPTEPG, so a pointer to PTE slot i of leaf pg is
the number pg * NPTEPG + i; distinct pages occupy disjoint, page-aligned
address ranges exactly as PMAP_MAP_POOLPAGE guarantees.  Machine addresses are
Nat; the bitmask (va >> SHIFT) & (N - 1) of the source is written
(va >>> SHIFT) % N, which is the same function since every N is a power of two.
-/

/-- PGSHIFT of the modelled platform: pages are 2^5 = 32 bytes. -/
def PGSHIFT : Nat := 5

/-- PAGE_SIZE = NBPG = 1 << PGSHIFT. -/
def PAGE_SIZE : Nat := 2 ^ PGSHIFT

/-- NPTEPG: number of pt_entry_t words in one leaf page (NBPG / 8). -/
def NPTEPG : Nat := 4

/-- SEGSHIFT = PGSHIFT + log2 NPTEPG: shift selecting the bottom-level index. -/
def SEGSHIFT : Nat := 7

/-- NBSEG = 1 << SEGSHIFT: bytes of VA spanned by one leaf page. -/
def NBSEG : Nat := 2 ^ SEGSHIFT

/-- PMAP_SEGTABSIZE: slots per segtab (directory node). -/
def PMAP_SEGTABSIZE : Nat := 4

/-- NSEGPG: fan-out of the top (xseg) level; equals PMAP_SEGTABSIZE here. -/
def NSEGPG : Nat := 4

/-- XSEGSHIFT = SEGSHIFT + log2 NSEGPG: shift selecting the top-level index. -/
def XSEGSHIFT : Nat := 9

/-- NBXSEG = 1 << XSEGSHIFT: bytes of VA spanned by one bottom segtab. -/
def NBXSEG : Nat := 2 ^ XSEGSHIFT

/-- PMAP_CANFAIL flag bit of uvm_pmap.h (0x20): authorizes pmap_pte_reserve to
return NULL instead of panicking on allocation failure. -/
def PMAP_CANFAIL : Nat := 0x20

/-- Contents of one pmap_segtab_t: PMAP_SEGTABSIZE slots, each NULL or a
pointer.  This is the union seg_tab[] / seg_seg[] of the source; slot values
are page handles (of child segtabs at the top level, of leaf PTE pages at the
bottom level, or the freelist link in slot 0 of a free segtab). -/
abbrev SegSlots := Fin PMAP_SEGTABSIZE → Option Nat

/-- Contents of one leaf page: NPTEPG pt_entry_t words. -/
abbrev PteArr := Fin NPTEPG → Nat

/-- Slot index 0, the freelist link slot (seg_seg[0]). -/
def fin0 : Fin PMAP_SEGTABSIZE := ⟨0, by decide⟩

/-- Global state touched by pmap_segtab.c: the two heaps, the module-global
pmap_segtab_info (free_segtab freelist head and ptp_pgflist leaf-page cache)
and the physical page allocator.  next_page is the fresh-handle counter of the
page source; pagealloc_budget is the number of pages PMAP_ALLOC_POOLPAGE can
still return without blocking — pmap_pte_pagealloc fails (returns NULL) iff it
is 0.  The spin mutex pmap_segtab_lock serializes a uniprocessor execution
trivially and has no observable content, so it is not represented. -/
structure Sys where
  segmem : Nat → SegSlots
  ptemem : Nat → PteArr
  free_segtab : Option Nat
  ptp_pgflist : List Nat
  next_page : Nat
  pagealloc_budget : Nat

/-- The two fields of struct pmap consumed by this module. -/
structure Pmap where
  pm_segtab : Option Nat
  pm_minaddr : Nat

/-- A pte_callback_t.  The C callback receives (pmap, sva, eva, pte, flags)
where pte points at the leaf array; its module-visible effect is confined to
the PTE words of that leaf, so it is modelled as a transformer of the leaf
contents, applied to (sva, eva, flags, contents). -/
abbrev PteCb := Nat → Nat → Nat → PteArr → PteArr

/-- Outcome of pmap_pte_reserve: a returned pointer (possibly NULL, with the
state it left behind), a panic, or undefined behaviour (dereference of a NULL
pm_segtab root, which an initialized pmap never has). -/
inductive RRes where
  | ret (pte : Option Nat) (s : Sys)
  | panic
  | undef

/-- Write slot i of segtab x: stb->seg_tab[i] = v (or seg_seg[i]). -/
def setSeg (s : Sys) (x : Nat) (i : Fin PMAP_SEGTABSIZE) (v : Option Nat) : Sys :=
  { s with segmem := Function.update s.segmem x (Function.update (s.segmem x) i v) }

/-- Replace the contents of leaf page pg (what a callback's PTE writes do). -/
def setLeafArr (s : Sys) (pg : Nat) (a : PteArr) : Sys :=
  { s with ptemem := Function.update s.ptemem pg a }

/-- Top-level index field: (va >> XSEGSHIFT) & (NSEGPG - 1). -/
def xsegIdx (va : Nat) : Fin PMAP_SEGTABSIZE :=
  ⟨(va >>> XSEGSHIFT) % NSEGPG, Nat.mod_lt _ (by decide)⟩

/-- Bottom-level index field: (va >> SEGSHIFT) & (PMAP_SEGTABSIZE - 1). -/
def segIdx (va : Nat) : Fin PMAP_SEGTABSIZE :=
  ⟨(va >>> SEGSHIFT) % PMAP_SEGTABSIZE, Nat.mod_lt _ (by decide)⟩

/-- Leaf index field: (va >> PGSHIFT) & (NPTEPG - 1). -/
def pteIdx (va : Nat) : Nat := (va >>> PGSHIFT) % NPTEPG

/-- pmap_trunc_seg(va) = va & ~SEGOFSET: round va down to a NBSEG boundary. -/
def pmap_trunc_seg (va : Nat) : Nat := va / NBSEG * NBSEG

/-- pmap_pte_pagealloc: PMAP_ALLOC_POOLPAGE(UVM_PGA_ZERO | UVM_PGA_USERESERVE).
Returns NULL iff the allocator is exhausted (budget 0); otherwise hands out a
fresh zero-filled page. -/
def pmap_pte_pagealloc (s : Sys) : Option Nat × Sys :=
  match s.pagealloc_budget with
  | 0 => (none, s)
  | Nat.succ b =>
    (some s.next_page,
     { s with next_page := s.next_page + 1,
              pagealloc_budget := b,
              ptemem := Function.update s.ptemem s.next_page (fun _ => 0) })

/-- pmap_segmap: walk the root segtab.  On _LP64 first index the root by the
xseg field (NULL child gives NULL), then index the bottom segtab by the seg
field.  Dereferencing a NULL pm_segtab is undefined behaviour in the source;
initialized pmaps (the only precondition under which it is called) never have
one, and the theorems below carry that hypothesis. -/
def pmap_segmap (s : Sys) (pm : Pmap) (va : Nat) : Option Nat :=
  match pm.pm_segtab with
  | none => none
  | some root =>
    match s.segmem root (xsegIdx va) with
    | none => none
    | some stb => s.segmem stb (segIdx va)

/-- pmap_pte_lookup: pmap_segmap, then add the pte index of va to the leaf
base pointer (pte + ((va >> PGSHIFT) & (NPTEPG - 1))). -/
def pmap_pte_lookup (s : Sys) (pm : Pmap) (va : Nat) : Option Nat :=
  match pmap_segmap s pm va with
  | none => none
  | some pg => some (pg * NPTEPG + pteIdx va)

/-- pmap_segtab_free: push stb onto the free_segtab freelist, linking through
its slot 0 (stb->seg_seg[0] = pmap_segtab_info.free_segtab; free_segtab = stb). -/
def pmap_segtab_free (s : Sys) (stb : Nat) : Sys :=
  { setSeg s stb fin0 s.free_segtab with free_segtab := some stb }

/-- pmap_segtab_alloc: pop the freelist head (clearing its slot-0 link) if the
freelist is non-empty; otherwise allocate a fresh zeroed page and use it as the
segtab.  In the source an exhausted page allocator makes it sleep in
uvm_wait("segtab") and retry forever, so as observed by its caller the
allocation always succeeds; the model therefore always hands out a fresh page
in this branch (and does not charge the non-blocking pagealloc_budget).
On this platform NBPG / sizeof(pmap_segtab_t) = 1, so the branch that links
the sibling segtabs of the new page into the freelist is dead (n > 1 is
false) and does not appear. -/
def pmap_segtab_alloc (s : Sys) : Nat × Sys :=
  match s.free_segtab with
  | some stb =>
    (stb, setSeg { s with free_segtab := s.segmem stb fin0 } stb fin0 none)
  | none =>
    (s.next_page,
     { s with next_page := s.next_page + 1,
              segmem := Function.update s.segmem s.next_page (fun _ => none) })

/-- Loop body and recursion of pmap_segtab_release.  The first argument is
structural fuel so that the function computes by kernel reduction; the source
recursion terminates because vinc shrinks from NBXSEG to NBSEG, and
RELEASE_FUEL below strictly exceeds the length of any call chain, so the fuel
never runs out on the calls the wrapper makes.  Parameters stb (the segtab
being swept, *stb_p of the source), va and i mirror the C loop
for (i = (va / vinc) & (PMAP_SEGTABSIZE - 1); i < PMAP_SEGTABSIZE; i++, va += vinc).
For vinc > NBSEG a non-null slot holds a child segtab: recurse over it with
vinc / NSEGPG, then (free_stb was passed true) pmap_segtab_free it and null
the slot.  For vinc = NBSEG a non-null slot holds a leaf page: invoke the
callback if any (recording the invocation (va, va + vinc, leaf base pointer)
in the returned trace), push the page onto the PMAP_PTP_CACHE list
ptp_pgflist, and null the slot. -/
def releaseAux (callback : Option PteCb) (flags : Nat) :
    Nat → Nat → Nat → Nat → Nat → Sys → Sys × List (Nat × Nat × Nat)
  | 0, _, _, _, _, s => (s, [])
  | Nat.succ fuel, vinc, stb, va, i, s =>
    if hi : i < PMAP_SEGTABSIZE then
      let step :=
        if NBSEG < vinc then
          match s.segmem stb ⟨i, hi⟩ with
          | none => (s, ([] : List (Nat × Nat × Nat)))
          | some child =>
            let rec1 := releaseAux callback flags fuel (vinc / NSEGPG) child va
              ((va / (vinc / NSEGPG)) % PMAP_SEGTABSIZE) s
            (setSeg (pmap_segtab_free rec1.1 child) stb ⟨i, hi⟩ none, rec1.2)
        else
          match s.segmem stb ⟨i, hi⟩ with
          | none => (s, [])
          | some pg =>
            let s2 :=
              match callback with
              | none => s
              | some f => setLeafArr s pg (f va (va + vinc) flags (s.ptemem pg))
            (setSeg { s2 with ptp_pgflist := pg :: s2.ptp_pgflist } stb ⟨i, hi⟩ none,
             match callback with
             | none => []
             | some _ => [(va, va + vinc, pg * NPTEPG)])
      let rest := releaseAux callback flags fuel vinc stb (va + vinc) (i + 1) step.1
      (rest.1, step.2 ++ rest.2)
    else (s, [])

/-- Fuel passed to releaseAux: strictly more than the longest possible chain of
nested releaseAux calls (one top-level sweep of at most PMAP_SEGTABSIZE + 1
calls, each entering at most one child sweep of at most PMAP_SEGTABSIZE + 1
calls). -/
def RELEASE_FUEL : Nat := 2 * PMAP_SEGTABSIZE + 4

/-- pmap_segtab_release: sweep segtab stb starting at slot
(va / vinc) & (PMAP_SEGTABSIZE - 1), then, if free_stb, pmap_segtab_free stb
(the caller nulls its pointer to stb, see pmap_segtab_destroy).  Also returns
the trace of callback invocations. -/
def pmap_segtab_release (s : Sys) (stb : Nat) (free_stb : Bool)
    (callback : Option PteCb) (flags va vinc : Nat) : Sys × List (Nat × Nat × Nat) :=
  let r := releaseAux callback flags RELEASE_FUEL vinc stb va
    ((va / vinc) % PMAP_SEGTABSIZE) s
  (if free_stb then pmap_segtab_free r.1 stb else r.1, r.2)

/-- pmap_segtab_init: allocate the root segtab of a pmap. -/
def pmap_segtab_init (s : Sys) (pm : Pmap) : Pmap × Sys :=
  let a := pmap_segtab_alloc s
  ({ pm with pm_segtab := some a.1 }, a.2)

/-- pmap_segtab_destroy: return immediately if pm_segtab is NULL; otherwise
release the whole directory starting from pm_minaddr with the top-level span
vinc = NBXSEG (_LP64).  Note the source passes func == NULL as free_stb, so
the root segtab is freed — and pm_segtab nulled through *stb_p — only when no
callback was supplied. -/
def pmap_segtab_destroy (s : Sys) (pm : Pmap) (func : Option PteCb) (flags : Nat) :
    Pmap × Sys × List (Nat × Nat × Nat) :=
  match pm.pm_segtab with
  | none => (pm, s, [])
  | some root =>
    let r := pmap_segtab_release s root func.isNone func flags pm.pm_minaddr NBXSEG
    (if func.isNone then { pm with pm_segtab := none } else pm, r.1, r.2)

/-- Loop of pmap_pte_process, as the trace of callback invocations
(sva, lastseg_va, ptep).  The callback only mutates PTE words of the leaf it
is handed, which pmap_pte_lookup never reads, so the walk itself is a pure
function of the directory.  The first argument is structural fuel; each
iteration advances sva by at least 1, so fuel = eva - sva (what the wrapper
passes) never runs out while sva < eva.  The lastseg_va == 0 test of the
source catches the wrap of trunc_seg(sva) + NBSEG past the top of the
address space; over Nat the sum does not wrap and the same situation is
caught by lastseg_va > eva, so the test is kept but never fires.
segBoundary is those two lines: lastseg_va = pmap_trunc_seg(sva) + NBSEG,
clamped to eva when it is 0 or exceeds eva. -/
def segBoundary (sva eva : Nat) : Nat :=
  if pmap_trunc_seg sva + NBSEG = 0 ∨ eva < pmap_trunc_seg sva + NBSEG then eva
  else pmap_trunc_seg sva + NBSEG

def processAux (s : Sys) (pm : Pmap) (eva : Nat) :
    Nat → Nat → List (Nat × Nat × Nat)
  | 0, _ => []
  | Nat.succ fuel, sva =>
    if sva < eva then
      let lastseg_va := segBoundary sva eva
      let rest := processAux s pm eva fuel lastseg_va
      match pmap_pte_lookup s pm sva with
      | some ptep => (sva, lastseg_va, ptep) :: rest
      | none => rest
    else []

/-- pmap_pte_process: act on [sva, eva) one leaf sub-range at a time, invoking
the callback once per populated leaf with the looked-up PTE pointer for sva. -/
def pmap_pte_process (s : Sys) (pm : Pmap) (sva eva : Nat) :
    List (Nat × Nat × Nat) :=
  processAux s pm eva (eva - sva) sva

/-- pmap_pte_reserve: fast path pmap_pte_lookup; on miss, on _LP64 allocate
and publish the missing intermediate segtab (plain store, no MULTIPROCESSOR),
then obtain a leaf page, first from ptp_pgflist, else from pmap_pte_pagealloc;
if both fail, return NULL under PMAP_CANFAIL and panic otherwise; finally
publish the leaf and return the slot pointer for va. -/
def pmap_pte_reserve (s : Sys) (pm : Pmap) (va : Nat) (flags : Nat) : RRes :=
  match pm.pm_segtab with
  | none => RRes.undef
  | some root =>
    match pmap_pte_lookup s pm va with
    | some pte => RRes.ret (some pte) s
    | none =>
      let step1 : Nat × Sys :=
        match s.segmem root (xsegIdx va) with
        | some stb => (stb, s)
        | none =>
          let a := pmap_segtab_alloc s
          (a.1, setSeg a.2 root (xsegIdx va) (some a.1))
      let step2 : Option Nat × Sys :=
        match step1.2.ptp_pgflist with
        | pg :: rest => (some pg, { step1.2 with ptp_pgflist := rest })
        | [] => pmap_pte_pagealloc step1.2
      match step2.1 with
      | none =>
        if flags &&& PMAP_CANFAIL ≠ 0 then RRes.ret none step2.2 else RRes.panic
      | some pg =>
        RRes.ret (some (pg * NPTEPG + pteIdx va))
          (setSeg step2.2 step1.1 (segIdx va) (some pg))

/-- One higher-level VM operation on a pmap, for stating properties of
operation sequences. -/
inductive PmOp where
  | lookupOp (va : Nat)
  | reserveOp (va flags : Nat)

/-- Run a sequence of lookup / reserve operations.  pmap_pte_lookup is a pure
walk and leaves the state alone; a reserve that returns (even NULL, under
PMAP_CANFAIL) continues with its result state; a panic stops the machine, so
the remaining operations never run. -/
def runOps (pm : Pmap) : Sys → List PmOp → Sys
  | s, [] => s
  | s, PmOp.lookupOp _ :: rest => runOps pm s rest
  | s, PmOp.reserveOp va fl :: rest =>
    match pmap_pte_reserve s pm va fl with
    | RRes.ret _ s2 => runOps pm s2 rest
    | _ => s

/-! ## Invariants and auxiliary predicates -/

/-- Every slot of a segtab is NULL (an in-use segtab with no children, or a
segtab as pmap_check_stb expects it when allocated or freed). -/
def allSlotsNull (t : SegSlots) : Prop := ∀ i, t i = none

/-- Every slot other than slot 0 is NULL (a segtab sitting on the freelist,
whose slot 0 holds the link). -/
def tailSlotsNull (t : SegSlots) : Prop :=
  ∀ i : Fin PMAP_SEGTABSIZE, i ≠ fin0 → t i = none

/-- The free_segtab freelist, linked through slot 0, spelled out as the list
of segtabs it holds. -/
inductive FreeChain (mem : Nat → SegSlots) : Option Nat → List Nat → Prop
  | nil : FreeChain mem none []
  | cons (x : Nat) (l : List Nat) :
      FreeChain mem (mem x fin0) l → FreeChain mem (some x) (x :: l)

/-- x is an intermediate segtab of the directory rooted at r: some root slot
points to it. -/
def isInter (s : Sys) (r x : Nat) : Prop := ∃ j, s.segmem r j = some x

/-- pg is an installed leaf page of the directory rooted at r: some slot of
some intermediate segtab points to it. -/
def isLeaf (s : Sys) (r pg : Nat) : Prop :=
  ∃ j x i, s.segmem r j = some x ∧ s.segmem x i = some pg

/-- Well-formedness of a state and an initialized pmap with root segtab r:
all live handles are below the fresh counter, the directory is a tree
(the root is not its own child, root slots are injective, leaf pages are
installed in at most one slot), the freelist is a duplicate-free chain of
all-but-slot-0-null segtabs disjoint from the directory, and the leaf-page
cache is duplicate-free and disjoint from the installed leaves.  Every state
reachable from pmap_segtab_init satisfies this. -/
structure SysInv (s : Sys) (pm : Pmap) (r : Nat) : Prop where
  root_eq : pm.pm_segtab = some r
  root_lt : r < s.next_page
  inter_lt : ∀ j x, s.segmem r j = some x → x < s.next_page
  leaf_lt : ∀ pg, isLeaf s r pg → pg < s.next_page
  root_not_inter : ∀ j, s.segmem r j ≠ some r
  inter_inj : ∀ j1 j2 x, s.segmem r j1 = some x → s.segmem r j2 = some x → j1 = j2
  leaf_inj : ∀ j1 x1 i1 j2 x2 i2 pg, s.segmem r j1 = some x1 →
      s.segmem x1 i1 = some pg → s.segmem r j2 = some x2 →
      s.segmem x2 i2 = some pg → j1 = j2 ∧ i1 = i2
  chain : ∃ l, FreeChain s.segmem s.free_segtab l ∧ l.Nodup ∧
      (∀ x ∈ l, x < s.next_page) ∧ (∀ x ∈ l, tailSlotsNull (s.segmem x)) ∧
      r ∉ l ∧ (∀ x, isInter s r x → x ∉ l)
  cache_nodup : s.ptp_pgflist.Nodup
  cache_lt : ∀ pg ∈ s.ptp_pgflist, pg < s.next_page
  cache_not_leaf : ∀ pg ∈ s.ptp_pgflist, ¬ isLeaf s r pg

/-! ## Concrete states used by witnesses and counterexamples -/

/-- A callback that zeroes every PTE of the leaf it is handed. -/
def zeroCb : PteCb := fun _ _ _ _ => fun _ => 0

/-- An initialized pmap whose root segtab is page 0. -/
def pm1 : Pmap := { pm_segtab := some 0, pm_minaddr := 0 }

/-- A pmap that has no root segtab. -/
def pmNull : Pmap := { pm_segtab := none, pm_minaddr := 0 }

/-- A directory with root 0, one intermediate segtab 1 in root slot 0, and one
leaf page 2 in slot 0 of the intermediate (covering virtual page 0). -/
def s1 : Sys :=
  { segmem := fun x => fun i =>
      if x = 0 ∧ i = fin0 then some 1
      else if x = 1 ∧ i = fin0 then some 2
      else none,
    ptemem := fun _ => fun _ => 0,
    free_segtab := none,
    ptp_pgflist := [],
    next_page := 3,
    pagealloc_budget := 4 }

/-- An empty directory: just the root segtab, page 0. -/
def s0 : Sys :=
  { segmem := fun _ => fun _ => none, ptemem := fun _ => fun _ => 0,
    free_segtab := none, ptp_pgflist := [], next_page := 1,
    pagealloc_budget := 4 }

/-- An empty directory under memory exhaustion: no cached leaf pages and a
page allocator that cannot deliver. -/
def sE : Sys :=
  { segmem := fun _ => fun _ => none, ptemem := fun _ => fun _ => 0,
    free_segtab := none, ptp_pgflist := [], next_page := 1,
    pagealloc_budget := 0 }

/-! ## Small stepping lemmas about the state operations -/

theorem setSeg_segmem (s : Sys) (x : Nat) (i : Fin PMAP_SEGTABSIZE)
    (v : Option Nat) (y : Nat) (j : Fin PMAP_SEGTABSIZE) :
    (setSeg s x i v).segmem y j =
      if y = x then (if j = i then v else s.segmem x j) else s.segmem y j := by
  simp only [setSeg, Function.update_apply, ite_apply]

theorem setSeg_segmem_other (s : Sys) (x : Nat) (i : Fin PMAP_SEGTABSIZE)
    (v : Option Nat) (y : Nat) (hy : y ≠ x) :
    (setSeg s x i v).segmem y = s.segmem y := by
  simp only [setSeg]
  exact Function.update_noteq hy _ _

theorem setSeg_free (s : Sys) (x : Nat) (i : Fin PMAP_SEGTABSIZE) (v : Option Nat) :
    (setSeg s x i v).free_segtab = s.free_segtab := rfl

theorem setSeg_ptp (s : Sys) (x : Nat) (i : Fin PMAP_SEGTABSIZE) (v : Option Nat) :
    (setSeg s x i v).ptp_pgflist = s.ptp_pgflist := rfl

theorem setSeg_next (s : Sys) (x : Nat) (i : Fin PMAP_SEGTABSIZE) (v : Option Nat) :
    (setSeg s x i v).next_page = s.next_page := rfl

theorem setSeg_budget (s : Sys) (x : Nat) (i : Fin PMAP_SEGTABSIZE) (v : Option Nat) :
    (setSeg s x i v).pagealloc_budget = s.pagealloc_budget := rfl

theorem setSeg_ptemem (s : Sys) (x : Nat) (i : Fin PMAP_SEGTABSIZE) (v : Option Nat) :
    (setSeg s x i v).ptemem = s.ptemem := rfl

theorem setLeafArr_segmem (s : Sys) (pg : Nat) (a : PteArr) :
    (setLeafArr s pg a).segmem = s.segmem := rfl

theorem setLeafArr_free (s : Sys) (pg : Nat) (a : PteArr) :
    (setLeafArr s pg a).free_segtab = s.free_segtab := rfl

theorem setLeafArr_ptp (s : Sys) (pg : Nat) (a : PteArr) :
    (setLeafArr s pg a).ptp_pgflist = s.ptp_pgflist := rfl

theorem setLeafArr_next (s : Sys) (pg : Nat) (a : PteArr) :
    (setLeafArr s pg a).next_page = s.next_page := rfl

theorem segtab_alloc_ptp (s : Sys) :
    (pmap_segtab_alloc s).2.ptp_pgflist = s.ptp_pgflist := by
  unfold pmap_segtab_alloc
  cases s.free_segtab <;> rfl

theorem segtab_alloc_budget (s : Sys) :
    (pmap_segtab_alloc s).2.pagealloc_budget = s.pagealloc_budget := by
  unfold pmap_segtab_alloc
  cases s.free_segtab <;> rfl

theorem segtab_alloc_ptemem (s : Sys) :
    (pmap_segtab_alloc s).2.ptemem = s.ptemem := by
  unfold pmap_segtab_alloc
  cases s.free_segtab <;> rfl

theorem segtab_free_segmem (s : Sys) (stb : Nat) (y : Nat) (hy : y ≠ stb) :
    (pmap_segtab_free s stb).segmem y = s.segmem y := by
  unfold pmap_segtab_free
  exact setSeg_segmem_other _ _ _ _ _ hy

theorem segtab_free_ptp (s : Sys) (stb : Nat) :
    (pmap_segtab_free s stb).ptp_pgflist = s.ptp_pgflist := rfl

theorem segtab_free_next (s : Sys) (stb : Nat) :
    (pmap_segtab_free s stb).next_page = s.next_page := rfl

/-! ## Claim C10: destroy of a pmap with a NULL root is a no-op -/

/-- C10: if pm_segtab is NULL, pmap_segtab_destroy returns immediately: the
callback is never invoked (empty invocation trace), the directory-node pool,
the leaf-page cache and every other component of the state are untouched, and
the pmap itself is unmodified. -/
theorem pmap_segtab_destroy_null_root_noop (s : Sys) (pm : Pmap)
    (func : Option PteCb) (flags : Nat) (h : pm.pm_segtab = none) :
    pmap_segtab_destroy s pm func flags = (pm, s, []) := by
  simp [pmap_segtab_destroy, h]

/-- Witness for C10 at a concrete pmap with no root. -/
theorem pmap_segtab_destroy_null_root_noop_witness :
    pmap_segtab_destroy s1 pmNull (some zeroCb) 7 = (pmNull, s1, []) :=
  pmap_segtab_destroy_null_root_noop s1 pmNull (some zeroCb) 7 rfl

/-! ## Claim C7: pmap_pte_lookup is a pure walk with the indexing formula -/

/-- C7: pmap_pte_lookup modifies no state (it is a function of the state that
returns only an optional pointer), returns NULL when the slot selected by the
shifted-and-masked index fields of va — the intermediate slot of the root on
this 3-level layout, then the bottom-level slot — is NULL, and otherwise
returns the address of element (va >> PGSHIFT) & (NPTEPG - 1) of the leaf PTE
array found in that slot. -/
theorem pmap_pte_lookup_spec (s : Sys) (pm : Pmap) (va r : Nat)
    (h : pm.pm_segtab = some r) :
    (s.segmem r (xsegIdx va) = none → pmap_pte_lookup s pm va = none) ∧
    (∀ x, s.segmem r (xsegIdx va) = some x → s.segmem x (segIdx va) = none →
        pmap_pte_lookup s pm va = none) ∧
    (∀ x pg, s.segmem r (xsegIdx va) = some x → s.segmem x (segIdx va) = some pg →
        pmap_pte_lookup s pm va = some (pg * NPTEPG + (va >>> PGSHIFT) % NPTEPG)) := by
  refine ⟨fun hx => ?_, fun x hx hb => ?_, fun x pg hx hb => ?_⟩
  · simp [pmap_pte_lookup, pmap_segmap, h, hx]
  · simp [pmap_pte_lookup, pmap_segmap, h, hx, hb]
  · simp [pmap_pte_lookup, pmap_segmap, pteIdx, h, hx, hb]

/-- Witness for C7: the populated directory s1 at va 0 resolves through
intermediate 1 to leaf 2, slot 0. -/
theorem pmap_pte_lookup_spec_witness :
    pmap_pte_lookup s1 pm1 0 = some (2 * NPTEPG + (0 >>> PGSHIFT) % NPTEPG) :=
  (pmap_pte_lookup_spec s1 pm1 0 0 rfl).2.2 1 2 (by decide) (by decide)

/-! ## Claim C4: NULL return of pmap_pte_reserve is exactly CANFAIL exhaustion -/

/-- C4: pmap_pte_reserve returns NULL iff the flags word contains PMAP_CANFAIL
and, on the slow path (pmap_pte_lookup found nothing), both the leaf-page
cache pop (ptp_pgflist empty) and the page allocator (pagealloc_budget
exhausted) fail; under that same exhaustion without PMAP_CANFAIL the call
panics instead of returning. -/
theorem pmap_pte_reserve_canfail_null_iff (s : Sys) (pm : Pmap) (va flags r : Nat)
    (h : pm.pm_segtab = some r) :
    ((∃ s2, pmap_pte_reserve s pm va flags = RRes.ret none s2) ↔
      (flags &&& PMAP_CANFAIL ≠ 0 ∧ pmap_pte_lookup s pm va = none ∧
       s.ptp_pgflist = [] ∧ s.pagealloc_budget = 0)) ∧
    (pmap_pte_reserve s pm va flags = RRes.panic ↔
      (flags &&& PMAP_CANFAIL = 0 ∧ pmap_pte_lookup s pm va = none ∧
       s.ptp_pgflist = [] ∧ s.pagealloc_budget = 0)) := by
  unfold pmap_pte_reserve
  rw [h]
  cases hlk : pmap_pte_lookup s pm va with
  | some pte => simp
  | none =>
    simp only []
    cases hro : s.segmem r (xsegIdx va) with
    | some stb =>
      simp only [hro]
      cases hpl : s.ptp_pgflist with
      | cons pg rest => simp [hpl]
      | nil =>
        cases hb : s.pagealloc_budget with
        | zero =>
          by_cases hc : flags &&& PMAP_CANFAIL = 0 <;>
            simp [hpl, hb, pmap_pte_pagealloc, hc]
        | succ b => simp [hpl, hb, pmap_pte_pagealloc]
    | none =>
      simp only [hro, setSeg_ptp, segtab_alloc_ptp, setSeg_budget,
        segtab_alloc_budget]
      cases hpl : s.ptp_pgflist with
      | cons pg rest => simp [hpl]
      | nil =>
        cases hb : s.pagealloc_budget with
        | zero =>
          by_cases hc : flags &&& PMAP_CANFAIL = 0 <;>
            simp [hpl, hb, pmap_pte_pagealloc, setSeg_budget,
              segtab_alloc_budget, hc]
        | succ b =>
          simp [hpl, hb, pmap_pte_pagealloc, setSeg_budget,
            segtab_alloc_budget]

/-- Witness for C4 at a concrete exhausted state: with PMAP_CANFAIL the
reserve returns NULL, without it the reserve panics. -/
theorem pmap_pte_reserve_canfail_null_iff_witness :
    (∃ s2, pmap_pte_reserve sE pm1 0 PMAP_CANFAIL = RRes.ret none s2) ∧
    pmap_pte_reserve sE pm1 0 0 = RRes.panic :=
  ⟨(pmap_pte_reserve_canfail_null_iff sE pm1 0 PMAP_CANFAIL 0 rfl).1.mpr
      ⟨by decide, by decide, rfl, rfl⟩,
   (pmap_pte_reserve_canfail_null_iff sE pm1 0 0 0 rfl).2.mpr
      ⟨by decide, by decide, rfl, rfl⟩⟩

/-! ## Counterexamples: C1, C3, C5 as stated fail on the code -/

/-- Counterexample to C1 as stated.  s1 is a pmap whose root segtab (page 0)
is non-null, holding one intermediate segtab and one leaf; zeroCb is a
non-null callback that zeroes every PTE of each leaf it is handed (first
conjunct).  Yet after pmap_segtab_destroy(P, zeroCb, 0) the root pointer
pm_segtab is still the old root, not NULL: the source passes func == NULL as
free_stb, so with a callback the root segtab is neither freed nor
disconnected. -/
theorem pmap_segtab_destroy_cb_keeps_root_cex :
    (∀ a b c arr i, zeroCb a b c arr i = 0) ∧
    pm1.pm_segtab = some 0 ∧
    (pmap_segtab_destroy s1 pm1 (some zeroCb) 0).1.pm_segtab = some 0 ∧
    (pmap_segtab_destroy s1 pm1 (some zeroCb) 0).1.pm_segtab ≠ none :=
  ⟨fun _ _ _ _ _ => rfl, rfl, by decide, by decide⟩

/-- Counterexample to C3 as stated.  In s1 the leaf page 2 covers virtual
range [0, NBSEG); walking [32, 128) — 32 is page-aligned but not
NBSEG-aligned — invokes the callback once, and the pte argument it receives
is 9 = leaf base (2 * NPTEPG = 8) + PTE index of va 32, not the base of the
leaf PTE array (the pointer to PTE index 0, which is 8). -/
theorem pmap_pte_process_base_cex :
    PAGE_SIZE ∣ 32 ∧ PAGE_SIZE ∣ 128 ∧
    pmap_pte_process s1 pm1 32 128 = [(32, 128, 9)] ∧
    pmap_segmap s1 pm1 32 = some 2 ∧
    (9 : Nat) ≠ 2 * NPTEPG := by decide

/-- Counterexample to C5 as stated.  The index extractions of pmap_segmap and
pmap_pte_lookup mask va down to XSEGSHIFT + log2 NSEGPG = 11 bits, so the
distinct addresses 0 and 2^11 = 2048 (whose xor, 2048, is at least PAGE_SIZE)
select the same slot: both lookups return the same pointer 8. -/
theorem pte_slot_isolation_cex :
    (0 : Nat) ≠ 2048 ∧ PAGE_SIZE ≤ 0 ^^^ 2048 ∧
    pmap_pte_lookup s1 pm1 0 = some 8 ∧
    pmap_pte_lookup s1 pm1 2048 = some 8 := by decide

/-! ## Claim C8: the directory-node pool recycles only all-null segtabs -/

/-- A freelist chain is insensitive to memory changes outside its members. -/
theorem FreeChain_congr (mem mem2 : Nat → SegSlots) (h : Option Nat)
    (l : List Nat) (hc : FreeChain mem h l)
    (he : ∀ x ∈ l, mem2 x = mem x) : FreeChain mem2 h l := by
  induction hc with
  | nil => exact FreeChain.nil
  | cons x l2 hl ih =>
    have hx : mem2 x fin0 = mem x fin0 := by
      rw [he x (List.mem_cons_self x l2)]
    have h2 := ih (fun y hy => he y (List.mem_cons_of_mem x hy))
    exact FreeChain.cons x l2 (by rw [hx]; exact h2)

/-- A chain headed by NULL is empty. -/
theorem FreeChain_none (mem : Nat → SegSlots) (l : List Nat)
    (hc : FreeChain mem none l) : l = [] := by
  cases hc
  rfl

/-- The directory-node pool is well formed: the freelist is a duplicate-free
chain of segtabs whose slots other than the slot-0 link are all NULL (the
segtab_put precondition, maintained by every push). -/
def FreePoolWF (s : Sys) : Prop :=
  ∃ l, FreeChain s.segmem s.free_segtab l ∧ l.Nodup ∧
    ∀ x ∈ l, tailSlotsNull (s.segmem x)

/-- C8: pmap_segtab_free of an all-null segtab (the documented precondition)
preserves the pool invariant, and under the pool invariant any later
pmap_segtab_alloc returns a segtab with every slot NULL — the slot-0 freelist
link is cleared before the segtab is handed out, and a segtab taken from a
freshly allocated zeroed page is all-null to begin with. -/
theorem segtab_put_get_all_null (s : Sys) (stb : Nat)
    (hwf : FreePoolWF s)
    (hnew : ∀ l, FreeChain s.segmem s.free_segtab l → stb ∉ l)
    (hnull : allSlotsNull (s.segmem stb)) :
    FreePoolWF (pmap_segtab_free s stb) ∧
    (∀ t : Sys, FreePoolWF t →
       allSlotsNull ((pmap_segtab_alloc t).2.segmem (pmap_segtab_alloc t).1)) := by
  constructor
  · obtain ⟨l, hc, hnd, htail⟩ := hwf
    have hstb : stb ∉ l := hnew l hc
    refine ⟨stb :: l, ?_, ?_, ?_⟩
    · refine FreeChain.cons stb l ?_
      have hlink : (pmap_segtab_free s stb).segmem stb fin0 = s.free_segtab := by
        simp [pmap_segtab_free, setSeg_segmem]
      rw [hlink]
      refine FreeChain_congr s.segmem _ _ _ hc ?_
      intro x hx
      exact segtab_free_segmem s stb x (fun he => hstb (he ▸ hx))
    · exact List.nodup_cons.mpr ⟨hstb, hnd⟩
    · intro x hx
      rcases List.mem_cons.mp hx with he | hm
      · intro i hi
        rw [he]
        have h3 : (pmap_segtab_free s stb).segmem stb i = s.segmem stb i := by
          simp [pmap_segtab_free, setSeg_segmem, hi]
        rw [h3]
        exact hnull i
      · intro i hi
        rw [segtab_free_segmem s stb x (fun he => hstb (he ▸ hm))]
        exact htail x hm i hi
  · intro t hwf2
    obtain ⟨l, hc, hnd, htail⟩ := hwf2
    cases hf : t.free_segtab with
    | none =>
      intro i
      simp [pmap_segtab_alloc, hf, Function.update_same]
    | some h2 =>
      rw [hf] at hc
      cases hc with
      | cons x l2 hl =>
        intro i
        by_cases hi : i = fin0
        · subst hi
          simp [pmap_segtab_alloc, hf, setSeg_segmem]
        · have := htail h2 (List.mem_cons_self h2 l2) i hi
          simp [pmap_segtab_alloc, hf, setSeg_segmem, hi]
          exact this

/-- Witness for C8: pushing the all-null segtab 5 onto the empty pool of s0
keeps the pool well formed, and the get guarantee holds. -/
theorem segtab_put_get_all_null_witness :
    FreePoolWF (pmap_segtab_free s0 5) ∧
    (∀ t : Sys, FreePoolWF t →
       allSlotsNull ((pmap_segtab_alloc t).2.segmem (pmap_segtab_alloc t).1)) :=
  segtab_put_get_all_null s0 5
    ⟨[], FreeChain.nil, List.nodup_nil, by intro x hx; cases hx⟩
    (fun l hc => by rw [FreeChain_none s0.segmem l hc]; exact List.not_mem_nil 5)
    (fun i => rfl)

/-! ## Claim C2: reserve then lookup round-trips -/

/-- Fast path of pmap_pte_reserve: when the lookup already succeeds the
reserve returns that pointer and leaves the state alone. -/
theorem reserve_fast_path (s : Sys) (pm : Pmap) (r va flags X : Nat)
    (h : pm.pm_segtab = some r) (hlk : pmap_pte_lookup s pm va = some X) :
    pmap_pte_reserve s pm va flags = RRes.ret (some X) s := by
  simp [pmap_pte_reserve, h, hlk]

/-- Looking up va after a leaf page has been published in the bottom slot for
va of the intermediate stb returns the slot pointer for va. -/
theorem lookup_after_install (sA : Sys) (pm : Pmap) (r stb pg va : Nat)
    (h : pm.pm_segtab = some r) (hne : stb ≠ r)
    (hro : sA.segmem r (xsegIdx va) = some stb) :
    pmap_pte_lookup (setSeg sA stb (segIdx va) (some pg)) pm va =
      some (pg * NPTEPG + pteIdx va) := by
  have h1 : (setSeg sA stb (segIdx va) (some pg)).segmem r (xsegIdx va) = some stb := by
    rw [setSeg_segmem_other sA stb (segIdx va) (some pg) r (fun he => hne he.symm)]
    exact hro
  have h2 : (setSeg sA stb (segIdx va) (some pg)).segmem stb (segIdx va) = some pg := by
    simp [setSeg_segmem]
  simp [pmap_pte_lookup, pmap_segmap, h, h1, h2]

/-- C2: if pmap_pte_reserve on a well-formed pmap returns a non-null pointer
X, then pmap_pte_lookup of the same va on the resulting state returns exactly
X, and any repeated pmap_pte_reserve of the same va (with any flags) also
returns X, leaving the state alone. -/
theorem pmap_pte_reserve_lookup_roundtrip (s : Sys) (pm : Pmap)
    (r va flags X : Nat) (s2 : Sys) (inv : SysInv s pm r)
    (h : pmap_pte_reserve s pm va flags = RRes.ret (some X) s2) :
    pmap_pte_lookup s2 pm va = some X ∧
    (∀ flags2, pmap_pte_reserve s2 pm va flags2 = RRes.ret (some X) s2) := by
  have hroot := inv.root_eq
  have hlk2 : pmap_pte_lookup s2 pm va = some X := by
    unfold pmap_pte_reserve at h
    rw [hroot] at h
    cases hlk : pmap_pte_lookup s pm va with
    | some pte =>
      rw [hlk] at h
      simp only [RRes.ret.injEq, Option.some.injEq] at h
      rw [← h.1, ← h.2]
      exact hlk
    | none =>
      rw [hlk] at h
      simp only [] at h
      cases hro : s.segmem r (xsegIdx va) with
      | some stb =>
        rw [hro] at h
        have hne : stb ≠ r := fun he => inv.root_not_inter (xsegIdx va) (he ▸ hro)
        cases hpl : s.ptp_pgflist with
        | cons pg rest =>
          rw [hpl] at h
          simp only [RRes.ret.injEq, Option.some.injEq] at h
          rw [← h.1, ← h.2]
          exact lookup_after_install _ pm r stb pg va hroot hne hro
        | nil =>
          rw [hpl] at h
          cases hb : s.pagealloc_budget with
          | zero =>
            rw [show pmap_pte_pagealloc s = (none, s) by
                  simp [pmap_pte_pagealloc, hb]] at h
            by_cases hc : flags &&& PMAP_CANFAIL ≠ 0 <;> simp [hc] at h
          | succ b =>
            rw [show pmap_pte_pagealloc s =
                (some s.next_page,
                 { s with next_page := s.next_page + 1, pagealloc_budget := b,
                          ptemem := Function.update s.ptemem s.next_page
                            (fun _ => 0) }) by
                  simp [pmap_pte_pagealloc, hb]] at h
            simp only [RRes.ret.injEq, Option.some.injEq] at h
            rw [← h.1, ← h.2]
            exact lookup_after_install _ pm r stb s.next_page va hroot hne hro
      | none =>
        rw [hro] at h
        have hne : (pmap_segtab_alloc s).1 ≠ r := by
          obtain ⟨l, hc, hnd, hlt, htail, hrl, hil⟩ := inv.chain
          cases hf : s.free_segtab with
          | none =>
            simp only [pmap_segtab_alloc, hf]
            exact fun he => absurd (he ▸ inv.root_lt) (lt_irrefl _)
          | some h2 =>
            rw [hf] at hc
            cases hc with
            | cons x l2 hl =>
              simp only [pmap_segtab_alloc, hf]
              exact fun he => hrl (he ▸ List.mem_cons_self h2 l2)
        have hs1 : (setSeg (pmap_segtab_alloc s).2 r (xsegIdx va)
            (some (pmap_segtab_alloc s).1)).segmem r (xsegIdx va) =
            some (pmap_segtab_alloc s).1 := by
          simp [setSeg_segmem]
        cases hpl : (setSeg (pmap_segtab_alloc s).2 r (xsegIdx va)
            (some (pmap_segtab_alloc s).1)).ptp_pgflist with
        | cons pg rest =>
          rw [hpl] at h
          simp only [RRes.ret.injEq, Option.some.injEq] at h
          rw [← h.1, ← h.2]
          exact lookup_after_install _ pm r _ pg va hroot hne hs1
        | nil =>
          rw [hpl] at h
          cases hb : (setSeg (pmap_segtab_alloc s).2 r (xsegIdx va)
              (some (pmap_segtab_alloc s).1)).pagealloc_budget with
          | zero =>
            simp only [pmap_pte_pagealloc, hb] at h
            by_cases hc : flags &&& PMAP_CANFAIL ≠ 0 <;> simp [hc] at h
          | succ b =>
            simp only [pmap_pte_pagealloc, hb] at h
            simp only [RRes.ret.injEq, Option.some.injEq] at h
            rw [← h.1, ← h.2]
            exact lookup_after_install _ pm r _
              (setSeg (pmap_segtab_alloc s).2 r (xsegIdx va)
                (some (pmap_segtab_alloc s).1)).next_page va hroot hne hs1
  exact ⟨hlk2, fun flags2 => reserve_fast_path s2 pm r va flags2 X hroot hlk2⟩

/-- The s0 state is well formed (empty directory, empty pools). -/
theorem SysInv_s0 : SysInv s0 pm1 0 := by
  refine ⟨rfl, by decide, ?_, ?_, ?_, ?_, ?_,
    ⟨[], FreeChain.nil, List.nodup_nil, ?_, ?_, ?_, ?_⟩, List.nodup_nil, ?_, ?_⟩
  · intro j x hx; simp [s0] at hx
  · rintro pg ⟨j, x, i, h1, h2⟩; simp [s0] at h1
  · intro j hx; simp [s0] at hx
  · intro j1 j2 x h1 h2; simp [s0] at h1
  · intro j1 x1 i1 j2 x2 i2 pg h1 h2 h3 h4; simp [s0] at h1
  · intro x hx; cases hx
  · intro x hx; cases hx
  · exact List.not_mem_nil 0
  · intro x hx; exact List.not_mem_nil x
  · intro pg hpg; cases hpg
  · intro pg hpg; cases hpg

/-- The state produced by reserving va 0 in the empty directory s0. -/
def rw1 : Sys :=
  match pmap_pte_reserve s0 pm1 0 0 with
  | RRes.ret _ s2 => s2
  | _ => s0

/-- Witness for C2: reserving va 0 in the empty directory s0 returns the slot
pointer 8 (leaf page 2, PTE index 0); the round-trip follows. -/
theorem pmap_pte_reserve_lookup_roundtrip_witness :
    pmap_pte_lookup rw1 pm1 0 = some 8 ∧
    (∀ flags2, pmap_pte_reserve rw1 pm1 0 flags2 = RRes.ret (some 8) rw1) :=
  pmap_pte_reserve_lookup_roundtrip s0 pm1 0 0 0 8 rw1 SysInv_s0 rfl

/-! ## Claim C6: range-walker spans -/

theorem NBSEG_eq : NBSEG = 128 := rfl

theorem NBXSEG_eq : NBXSEG = 512 := rfl

theorem PAGE_SIZE_eq : PAGE_SIZE = 32 := rfl

/-- Arithmetic side conditions of the range walker and the teardown sweeps,
each established once and reused. -/
theorem one_le_ceil {sva eva : Nat} (hlt : sva < eva) :
    1 ≤ (eva - sva + NBSEG - 1) / NBSEG := by
  simp only [NBSEG_eq]
  omega

theorem ceil_shift {sva eva : Nat} (hbig : ¬ eva < sva + NBSEG) :
    (eva - (sva + NBSEG) + NBSEG - 1) / NBSEG + 1 =
      (eva - sva + NBSEG - 1) / NBSEG := by
  simp only [NBSEG_eq] at hbig ⊢
  omega

theorem div_mul_lt_of_lt {sva eva : Nat} (h : sva < eva) :
    sva / NBSEG * NBSEG < eva :=
  Nat.lt_of_le_of_lt (Nat.div_mul_le_self sva NBSEG) h

theorem lt_trunc_succ (sva : Nat) : sva < (sva / NBSEG + 1) * NBSEG := by
  simp only [NBSEG_eq]
  omega

theorem sum_nbseg_ne_zero (sva : Nat) : ¬ (sva + NBSEG = 0) := by
  simp only [NBSEG_eq]
  omega

theorem fuel_past_boundary {sva eva fuel b : Nat} (hf : eva - sva ≤ fuel + 1)
    (hgt : sva < b) : eva - b ≤ fuel := by
  omega

theorem succ_le_of_le_ne {a b : Nat} (h : a ≤ b) (hne : ¬ b = a) : a + 1 ≤ b :=
  Nat.lt_of_le_of_ne h (fun e => hne e.symm)

theorem no_high_slot {i : Nat} (hi : ¬ i < PMAP_SEGTABSIZE)
    {j : Fin PMAP_SEGTABSIZE} (hj : i ≤ j.val) : False :=
  hi (Nat.lt_of_le_of_lt hj j.isLt)

theorem fin_ne_of_val_ne {i : Nat} {hi : i < PMAP_SEGTABSIZE}
    {j : Fin PMAP_SEGTABSIZE} (h : ¬ j.val = i) : j ≠ ⟨i, hi⟩ :=
  fun he => h (congrArg Fin.val he)

theorem fin_ne_of_val_lt {i : Nat} {hi : i < PMAP_SEGTABSIZE}
    {j : Fin PMAP_SEGTABSIZE} (h : j.val < i) : j ≠ ⟨i, hi⟩ :=
  fin_ne_of_val_ne (Nat.ne_of_lt h)

theorem fin_ne_of_succ_le {i : Nat} {hi : i < PMAP_SEGTABSIZE}
    {j : Fin PMAP_SEGTABSIZE} (h : i + 1 ≤ j.val) : j ≠ ⟨i, hi⟩ :=
  fin_ne_of_val_ne (fun he => Nat.not_succ_le_self i (he ▸ h))

theorem sweep_fuel_step {i fuel : Nat} (hi : i < PMAP_SEGTABSIZE)
    (h : PMAP_SEGTABSIZE - i < fuel + 1) : PMAP_SEGTABSIZE - (i + 1) < fuel := by
  omega

theorem top_fuel_step {i fuel : Nat}
    (h : PMAP_SEGTABSIZE + 2 + (PMAP_SEGTABSIZE - i) ≤ fuel + 1)
    (hi : i < PMAP_SEGTABSIZE) :
    PMAP_SEGTABSIZE + 2 + (PMAP_SEGTABSIZE - (i + 1)) ≤ fuel := by
  omega

theorem top_fuel_leaf {i fuel : Nat}
    (h : PMAP_SEGTABSIZE + 2 + (PMAP_SEGTABSIZE - i) ≤ fuel + 1) :
    PMAP_SEGTABSIZE - 0 < fuel := by
  omega

theorem top_fuel_zero {i : Nat}
    (h : PMAP_SEGTABSIZE + 2 + (PMAP_SEGTABSIZE - i) ≤ 0) : False := by
  omega

theorem segBoundary_gt (sva eva : Nat) (h : sva < eva) :
    sva < segBoundary sva eva := by
  unfold segBoundary
  split
  · exact h
  · simp only [pmap_trunc_seg, NBSEG_eq]
    omega

theorem segBoundary_le (sva eva : Nat) (h : sva < eva) :
    segBoundary sva eva ≤ eva := by
  unfold segBoundary
  split
  · exact le_refl eva
  · next hcond =>
    rw [not_or] at hcond
    omega

theorem segBoundary_shape (sva eva : Nat) (h : sva < eva) :
    (segBoundary sva eva = eva ∧ eva ≤ (sva / NBSEG + 1) * NBSEG) ∨
    (segBoundary sva eva = (sva / NBSEG + 1) * NBSEG ∧
      (sva / NBSEG + 1) * NBSEG ≤ eva) := by
  unfold segBoundary
  split
  · next hcond =>
    refine Or.inl ⟨rfl, ?_⟩
    simp only [pmap_trunc_seg, NBSEG_eq] at hcond ⊢
    omega
  · next hcond =>
    rw [not_or] at hcond
    refine Or.inr ⟨?_, ?_⟩ <;> simp only [pmap_trunc_seg, NBSEG_eq] at hcond ⊢ <;> omega

theorem processAux_nil_of_ge (s : Sys) (pm : Pmap) (eva fuel sva : Nat)
    (h : eva ≤ sva) : processAux s pm eva fuel sva = [] := by
  cases fuel with
  | zero => rfl
  | succ fuel => simp [processAux, Nat.not_lt.mpr h]

theorem processAux_mem (s : Sys) (pm : Pmap) (eva : Nat) :
    ∀ fuel sva, ∀ e ∈ processAux s pm eva fuel sva,
      sva ≤ e.1 ∧ e.1 < eva ∧ pmap_pte_lookup s pm e.1 = some e.2.2 := by
  intro fuel
  induction fuel with
  | zero => intro sva e he; cases he
  | succ fuel ih =>
    intro sva e he
    by_cases hlt : sva < eva
    · simp only [processAux, if_pos hlt] at he
      cases hlk : pmap_pte_lookup s pm sva with
      | some ptep =>
        rw [hlk] at he
        rcases List.mem_cons.mp he with he1 | he2
        · rw [he1]
          exact ⟨le_refl _, hlt, hlk⟩
        · obtain ⟨h1, h2, h3⟩ := ih _ e he2
          exact ⟨le_trans (le_of_lt (segBoundary_gt sva eva hlt)) h1, h2, h3⟩
      | none =>
        rw [hlk] at he
        obtain ⟨h1, h2, h3⟩ := ih _ e he
        exact ⟨le_trans (le_of_lt (segBoundary_gt sva eva hlt)) h1, h2, h3⟩
    · rw [processAux_nil_of_ge s pm eva _ sva (Nat.not_lt.mp hlt)] at he
      cases he

theorem processAux_pairwise (s : Sys) (pm : Pmap) (eva : Nat) :
    ∀ fuel sva,
      (processAux s pm eva fuel sva).Pairwise (fun a b => a.1 < b.1) := by
  intro fuel
  induction fuel with
  | zero => intro sva; exact List.Pairwise.nil
  | succ fuel ih =>
    intro sva
    by_cases hlt : sva < eva
    · simp only [processAux, if_pos hlt]
      cases hlk : pmap_pte_lookup s pm sva with
      | some ptep =>
        refine List.pairwise_cons.mpr ⟨?_, ih _⟩
        intro e he
        have h1 := (processAux_mem s pm eva fuel _ e he).1
        have h2 := segBoundary_gt sva eva hlt
        exact lt_of_lt_of_le h2 h1
      | none => exact ih _
    · simp [processAux, if_neg hlt]

theorem processAux_len_aligned (s : Sys) (pm : Pmap) (eva : Nat) :
    ∀ fuel sva, sva % NBSEG = 0 →
      (processAux s pm eva fuel sva).length ≤ (eva - sva + NBSEG - 1) / NBSEG := by
  intro fuel
  induction fuel with
  | zero => intro sva ha; exact Nat.zero_le _
  | succ fuel ih =>
    intro sva ha
    by_cases hlt : sva < eva
    · simp only [processAux, if_pos hlt]
      have htr : pmap_trunc_seg sva = sva :=
        Nat.div_mul_cancel (Nat.dvd_of_mod_eq_zero ha)
      by_cases hbig : eva < sva + NBSEG
      · have hsb : segBoundary sva eva = eva := by
          unfold segBoundary
          rw [htr, if_pos (Or.inr hbig)]
        rw [hsb, processAux_nil_of_ge s pm eva fuel eva (le_refl _)]
        cases hlk : pmap_pte_lookup s pm sva with
        | none => exact Nat.zero_le _
        | some ptep => exact one_le_ceil hlt
      · have hsb : segBoundary sva eva = sva + NBSEG := by
          unfold segBoundary
          rw [htr, if_neg]
          rw [not_or]
          exact ⟨sum_nbseg_ne_zero sva, hbig⟩
        rw [hsb]
        have ih2 := ih (sva + NBSEG) ((Nat.add_mod_right sva NBSEG).trans ha)
        have harith := ceil_shift hbig
        cases hlk : pmap_pte_lookup s pm sva with
        | none =>
          rw [← harith]
          exact Nat.le_succ_of_le ih2
        | some ptep =>
          rw [← harith]
          exact Nat.succ_le_succ ih2
    · rw [processAux_nil_of_ge s pm eva _ sva (Nat.not_lt.mp hlt)]
      exact Nat.zero_le _

theorem processAux_len (s : Sys) (pm : Pmap) (eva fuel sva : Nat) :
    (processAux s pm eva fuel sva).length ≤
      (eva - sva + NBSEG - 1) / NBSEG + 1 := by
  cases fuel with
  | zero => exact Nat.zero_le _
  | succ fuel =>
    by_cases hlt : sva < eva
    · simp only [processAux, if_pos hlt]
      have hgt := segBoundary_gt sva eva hlt
      rcases segBoundary_shape sva eva hlt with ⟨hsb, hsb2⟩ | ⟨hsb, hsb2⟩
      · rw [hsb, processAux_nil_of_ge s pm eva fuel eva (le_refl _)]
        cases hlk : pmap_pte_lookup s pm sva with
        | none => exact Nat.zero_le _
        | some ptep => exact Nat.succ_le_succ (Nat.zero_le _)
      · have hal : segBoundary sva eva % NBSEG = 0 := by
          rw [hsb]
          exact Nat.mul_mod_left _ _
        have hrest := processAux_len_aligned s pm eva fuel (segBoundary sva eva) hal
        have hsub : eva - segBoundary sva eva + NBSEG - 1 ≤ eva - sva + NBSEG - 1 :=
          Nat.sub_le_sub_right
            (Nat.add_le_add_right (Nat.sub_le_sub_left (Nat.le_of_lt hgt) eva) NBSEG) 1
        have hmono : (eva - segBoundary sva eva + NBSEG - 1) / NBSEG ≤
            (eva - sva + NBSEG - 1) / NBSEG := Nat.div_le_div_right hsub
        cases hlk : pmap_pte_lookup s pm sva with
        | none => exact le_trans hrest (le_trans hmono (Nat.le_succ _))
        | some ptep => exact Nat.succ_le_succ (le_trans hrest hmono)
    · rw [processAux_nil_of_ge s pm eva _ sva (Nat.not_lt.mp hlt)]
      exact Nat.zero_le _

theorem xsegIdx_trunc (va : Nat) : xsegIdx (pmap_trunc_seg va) = xsegIdx va := by
  apply Fin.ext
  show (pmap_trunc_seg va >>> XSEGSHIFT) % NSEGPG = (va >>> XSEGSHIFT) % NSEGPG
  simp only [pmap_trunc_seg, Nat.shiftRight_eq_div_pow]
  rw [show (2 : Nat) ^ XSEGSHIFT = NBSEG * 4 from rfl, ← Nat.div_div_eq_div_mul,
    ← Nat.div_div_eq_div_mul, Nat.mul_div_cancel _ (by decide : 0 < NBSEG)]

theorem segIdx_trunc (va : Nat) : segIdx (pmap_trunc_seg va) = segIdx va := by
  apply Fin.ext
  show (pmap_trunc_seg va >>> SEGSHIFT) % PMAP_SEGTABSIZE =
    (va >>> SEGSHIFT) % PMAP_SEGTABSIZE
  simp only [pmap_trunc_seg, Nat.shiftRight_eq_div_pow, NBSEG_eq]
  norm_num [SEGSHIFT, PMAP_SEGTABSIZE]

theorem segmap_trunc (s : Sys) (pm : Pmap) (va : Nat) :
    pmap_segmap s pm (pmap_trunc_seg va) = pmap_segmap s pm va := by
  unfold pmap_segmap
  rw [xsegIdx_trunc, segIdx_trunc]

theorem lookup_none_iff_segmap (s : Sys) (pm : Pmap) (va : Nat) :
    pmap_pte_lookup s pm va = none ↔ pmap_segmap s pm va = none := by
  unfold pmap_pte_lookup
  cases h : pmap_segmap s pm va <;> simp

theorem processAux_countP (s : Sys) (pm : Pmap) (eva : Nat) :
    ∀ fuel sva, eva - sva ≤ fuel → ∀ k,
      (processAux s pm eva fuel sva).countP
          (fun e => decide (pmap_trunc_seg e.1 = k * NBSEG)) =
        if sva < eva ∧ k * NBSEG < eva ∧ sva < (k + 1) * NBSEG ∧
            pmap_segmap s pm (k * NBSEG) ≠ none then 1 else 0 := by
  intro fuel
  induction fuel with
  | zero =>
    intro sva hf k
    have hle : eva ≤ sva := Nat.le_of_sub_eq_zero (Nat.le_zero.mp hf)
    rw [processAux_nil_of_ge s pm eva 0 sva hle, List.countP_nil, if_neg]
    exact fun hcond => absurd hcond.1 (Nat.not_lt.mpr hle)
  | succ fuel ih =>
    intro sva hf k
    by_cases hlt : sva < eva
    case neg =>
      rw [processAux_nil_of_ge s pm eva _ sva (Nat.not_lt.mp hlt),
        List.countP_nil, if_neg]
      exact fun hcond => hlt hcond.1
    case pos =>
    simp only [processAux, if_pos hlt]
    have hgt := segBoundary_gt sva eva hlt
    have hrest := ih (segBoundary sva eva) (fuel_past_boundary hf hgt) k
    by_cases hk : k = sva / NBSEG
    · have hrest0 : (processAux s pm eva fuel (segBoundary sva eva)).countP
          (fun e => decide (pmap_trunc_seg e.1 = k * NBSEG)) = 0 := by
        rw [hrest, if_neg]
        rintro ⟨hb1, hb2, hb3, hb4⟩
        rcases segBoundary_shape sva eva hlt with ⟨hsb, hsb2⟩ | ⟨hsb, hsb2⟩
        · rw [hsb] at hb1
          exact absurd hb1 (lt_irrefl eva)
        · rw [hsb, hk] at hb3
          exact absurd hb3 (lt_irrefl _)
      have hcond2 : k * NBSEG < eva := by
        rw [hk]
        exact div_mul_lt_of_lt hlt
      have hcond3 : sva < (k + 1) * NBSEG := by
        rw [hk]
        exact lt_trunc_succ sva
      cases hlk : pmap_pte_lookup s pm sva with
      | some ptep =>
        rw [List.countP_cons, hrest0]
        have htr2 : pmap_trunc_seg sva = k * NBSEG := by
          rw [hk]
          rfl
        have hpop : pmap_segmap s pm (k * NBSEG) ≠ none := by
          rw [show k * NBSEG = pmap_trunc_seg sva from htr2.symm, segmap_trunc]
          intro hsm
          rw [(lookup_none_iff_segmap s pm sva).mpr hsm] at hlk
          cases hlk
        simp [htr2, hlt, hcond2, hcond3, hpop]
      | none =>
        have hpop : pmap_segmap s pm (k * NBSEG) = none := by
          have h2 : k * NBSEG = pmap_trunc_seg sva := by
            rw [hk]
            rfl
          rw [h2, segmap_trunc]
          exact (lookup_none_iff_segmap s pm sva).mp hlk
        rw [hrest0, if_neg]
        exact fun hcond => hcond.2.2.2 hpop
    · have hiff : (segBoundary sva eva < eva ∧ k * NBSEG < eva ∧
            segBoundary sva eva < (k + 1) * NBSEG) ↔
          (sva < eva ∧ k * NBSEG < eva ∧ sva < (k + 1) * NBSEG) := by
        have hk2 : ¬ k = sva / 128 := by
          simpa only [NBSEG_eq] using hk
        rcases segBoundary_shape sva eva hlt with ⟨hb, hbb⟩ | ⟨hb, hbb⟩ <;>
          rw [hb] <;> simp only [NBSEG_eq] at hbb ⊢ <;> omega
      have hfull : (segBoundary sva eva < eva ∧ k * NBSEG < eva ∧
            segBoundary sva eva < (k + 1) * NBSEG ∧
            pmap_segmap s pm (k * NBSEG) ≠ none) ↔
          (sva < eva ∧ k * NBSEG < eva ∧ sva < (k + 1) * NBSEG ∧
            pmap_segmap s pm (k * NBSEG) ≠ none) := by
        constructor
        · rintro ⟨a, b2, c, d⟩
          obtain ⟨x, y, z⟩ := hiff.mp ⟨a, b2, c⟩
          exact ⟨x, y, z, d⟩
        · rintro ⟨a, b2, c, d⟩
          obtain ⟨x, y, z⟩ := hiff.mpr ⟨a, b2, c⟩
          exact ⟨x, y, z, d⟩
      cases hlk : pmap_pte_lookup s pm sva with
      | some ptep =>
        rw [List.countP_cons, hrest, if_congr hfull rfl rfl]
        have hne2 : ¬ pmap_trunc_seg sva = k * NBSEG :=
          fun he => hk ((Nat.eq_of_mul_eq_mul_right (by decide) he).symm)
        simp [hne2]
      | none =>
        rw [hrest, if_congr hfull rfl rfl]

/-- C6: for page-aligned sva ≤ eva, pmap_pte_process invokes the callback at
most ceil((eva - sva) / NBSEG) + 1 times, with strictly increasing (hence
monotonically non-decreasing) va_start arguments, never for an unpopulated
leaf, and exactly once per populated leaf whose VA span
[k * NBSEG, (k + 1) * NBSEG) intersects [sva, eva). -/
theorem pmap_pte_process_spans (s : Sys) (pm : Pmap) (sva eva : Nat)
    (hal1 : PAGE_SIZE ∣ sva) (hal2 : PAGE_SIZE ∣ eva) (hse : sva ≤ eva) :
    (pmap_pte_process s pm sva eva).length ≤
      (eva - sva + NBSEG - 1) / NBSEG + 1 ∧
    (pmap_pte_process s pm sva eva).Pairwise (fun a b => a.1 < b.1) ∧
    (∀ e ∈ pmap_pte_process s pm sva eva,
      pmap_pte_lookup s pm e.1 ≠ none) ∧
    (∀ k, (pmap_pte_process s pm sva eva).countP
        (fun e => decide (pmap_trunc_seg e.1 = k * NBSEG)) =
      if sva < eva ∧ k * NBSEG < eva ∧ sva < (k + 1) * NBSEG ∧
          pmap_segmap s pm (k * NBSEG) ≠ none then 1 else 0) := by
  refine ⟨processAux_len s pm eva _ sva, processAux_pairwise s pm eva _ sva,
    ?_, fun k => processAux_countP s pm eva _ sva (le_refl _) k⟩
  intro e he
  rw [(processAux_mem s pm eva _ sva e he).2.2]
  exact fun hc => Option.noConfusion hc

/-- Witness for C6 on the populated directory s1 over [0, NBXSEG). -/
theorem pmap_pte_process_spans_witness :
    (pmap_pte_process s1 pm1 0 512).length ≤
      (512 - 0 + NBSEG - 1) / NBSEG + 1 ∧
    (pmap_pte_process s1 pm1 0 512).Pairwise (fun a b => a.1 < b.1) ∧
    (∀ e ∈ pmap_pte_process s1 pm1 0 512,
      pmap_pte_lookup s1 pm1 e.1 ≠ none) ∧
    (∀ k, (pmap_pte_process s1 pm1 0 512).countP
        (fun e => decide (pmap_trunc_seg e.1 = k * NBSEG)) =
      if 0 < 512 ∧ k * NBSEG < 512 ∧ 0 < (k + 1) * NBSEG ∧
          pmap_segmap s1 pm1 (k * NBSEG) ≠ none then 1 else 0) :=
  pmap_pte_process_spans s1 pm1 0 512 (by decide) (by decide) (by decide)

/-! ## Claim C3 (amended): the callback argument of the range walker -/

/-- C3 (amended): every invocation of the callback made by pmap_pte_process
receives as its pte argument the looked-up slot pointer for the sub-range's
starting va — the base of the covering leaf PTE array plus the PTE index
(va >> PGSHIFT) & (NPTEPG - 1) of va.  This equals the base exactly when the
sub-range starts on an NBSEG boundary; for an unaligned first sub-range the
callback receives a pointer strictly inside the leaf array (see the
counterexample). -/
theorem pmap_pte_process_callback_arg (s : Sys) (pm : Pmap) (sva eva : Nat) :
    ∀ e ∈ pmap_pte_process s pm sva eva, ∃ pg,
      pmap_segmap s pm e.1 = some pg ∧
      e.2.2 = pg * NPTEPG + (e.1 >>> PGSHIFT) % NPTEPG := by
  intro e he
  have h3 := (processAux_mem s pm eva _ sva e he).2.2
  unfold pmap_pte_lookup at h3
  cases hsm : pmap_segmap s pm e.1 with
  | none =>
    rw [hsm] at h3
    cases h3
  | some pg =>
    rw [hsm] at h3
    simp only [Option.some.injEq] at h3
    exact ⟨pg, rfl, h3.symm⟩

/-- Witness for C3 (amended): the single invocation of the walk of [32, 128)
over s1 receives pointer 9 = leaf base 8 + PTE index 1 of va 32. -/
theorem pmap_pte_process_callback_arg_witness :
    ∃ pg, pmap_segmap s1 pm1 ((32, 128, 9) : Nat × Nat × Nat).1 = some pg ∧
      ((32, 128, 9) : Nat × Nat × Nat).2.2 =
        pg * NPTEPG + (((32, 128, 9) : Nat × Nat × Nat).1 >>> PGSHIFT) % NPTEPG :=
  pmap_pte_process_callback_arg s1 pm1 32 128 (32, 128, 9) (by decide)

/-! ## Claim C5 (amended): slot isolation within the decoded span -/

/-- Bits j and j + 1 of a and b agree when their two-bit fields at j agree. -/
theorem bit_of_field (a b j k : Nat) (hk : k < 2)
    (h : (a >>> j) % 4 = (b >>> j) % 4) :
    a.testBit (j + k) = b.testBit (j + k) := by
  have h2 := congrArg (fun t => t.testBit k) h
  simp only [show (4 : Nat) = 2 ^ 2 from rfl, Nat.testBit_mod_two_pow,
    Nat.testBit_shiftRight] at h2
  simpa [hk] using h2

/-- Two addresses that agree on all three index fields and lie within the
2^11-byte decoded span differ only in the page offset. -/
theorem xor_lt_page (va1 va2 : Nat)
    (hlt : va1 ^^^ va2 < 2048)
    (hp : (va1 >>> 5) % 4 = (va2 >>> 5) % 4)
    (hs : (va1 >>> 7) % 4 = (va2 >>> 7) % 4)
    (hx : (va1 >>> 9) % 4 = (va2 >>> 9) % 4) :
    va1 ^^^ va2 < 32 := by
  have hbit : ∀ i, 5 ≤ i → (va1 ^^^ va2).testBit i = false := by
    intro i hi
    by_cases h11 : 11 ≤ i
    · refine Nat.testBit_lt_two_pow (lt_of_lt_of_le hlt ?_)
      calc (2048 : Nat) = 2 ^ 11 := by norm_num
      _ ≤ 2 ^ i := Nat.pow_le_pow_right (by norm_num) h11
    · rw [Nat.testBit_xor]
      have heq : va1.testBit i = va2.testBit i := by
        interval_cases i
        · exact bit_of_field va1 va2 5 0 (by norm_num) hp
        · exact bit_of_field va1 va2 5 1 (by norm_num) hp
        · exact bit_of_field va1 va2 7 0 (by norm_num) hs
        · exact bit_of_field va1 va2 7 1 (by norm_num) hs
        · exact bit_of_field va1 va2 9 0 (by norm_num) hx
        · exact bit_of_field va1 va2 9 1 (by norm_num) hx
      rw [heq]
      simp
  have hxm : va1 ^^^ va2 = (va1 ^^^ va2) % 2 ^ 5 := by
    apply Nat.eq_of_testBit_eq
    intro i
    rw [Nat.testBit_mod_two_pow]
    by_cases hi : i < 5
    · simp [hi]
    · simp [hi, hbit i (Nat.not_lt.mp hi)]
  rw [hxm]
  have := Nat.mod_lt (va1 ^^^ va2) (show 0 < 2 ^ 5 by norm_num)
  omega

/-- Inversion of a successful lookup: the intermediate, the leaf and the
pointer formula. -/
theorem lookup_inv (s : Sys) (pm : Pmap) (va p r : Nat)
    (hroot : pm.pm_segtab = some r)
    (h : pmap_pte_lookup s pm va = some p) :
    ∃ x pg, s.segmem r (xsegIdx va) = some x ∧
      s.segmem x (segIdx va) = some pg ∧ p = pg * NPTEPG + pteIdx va := by
  unfold pmap_pte_lookup pmap_segmap at h
  simp only [hroot] at h
  cases hx : s.segmem r (xsegIdx va) with
  | none =>
    simp only [hx] at h
    exact Option.noConfusion h
  | some x =>
    simp only [hx] at h
    cases hpg : s.segmem x (segIdx va) with
    | none =>
      simp only [hpg] at h
      exact Option.noConfusion h
    | some pg =>
      simp only [hpg, Option.some.injEq] at h
      exact ⟨x, pg, rfl, hpg, h.symm⟩

/-- C5 (amended): on a well-formed pmap, for distinct va1, va2 with
va1 ^^^ va2 ≥ PAGE_SIZE that lie in the same decoded span (their xor is below
NSEGPG * NBXSEG, the number of bytes the three index fields can address), the
PTE slot pointers returned by pmap_pte_lookup — and hence, by C2, by any
successful pmap_pte_reserve — are different. -/
theorem pte_slot_isolation (s : Sys) (pm : Pmap) (r va1 va2 p1 p2 : Nat)
    (inv : SysInv s pm r) (hne : va1 ≠ va2)
    (hge : PAGE_SIZE ≤ va1 ^^^ va2) (hspan : va1 ^^^ va2 < NSEGPG * NBXSEG)
    (h1 : pmap_pte_lookup s pm va1 = some p1)
    (h2 : pmap_pte_lookup s pm va2 = some p2) : p1 ≠ p2 := by
  intro hpp
  obtain ⟨x1, pg1, hx1, hpg1, hp1⟩ := lookup_inv s pm va1 p1 r inv.root_eq h1
  obtain ⟨x2, pg2, hx2, hpg2, hp2⟩ := lookup_inv s pm va2 p2 r inv.root_eq h2
  have b1 : pteIdx va1 < NPTEPG := Nat.mod_lt _ (by decide)
  have b2 : pteIdx va2 < NPTEPG := Nat.mod_lt _ (by decide)
  have h4 : NPTEPG = 4 := rfl
  by_cases hpg : pg1 = pg2
  · rw [← hpg] at hpg2
    obtain ⟨hj, hi⟩ := inv.leaf_inj (xsegIdx va1) x1 (segIdx va1)
      (xsegIdx va2) x2 (segIdx va2) pg1 hx1 hpg1 hx2 hpg2
    have hpte : pteIdx va1 ≠ pteIdx va2 := by
      intro hp
      have hxor := xor_lt_page va1 va2
        (by rw [show NSEGPG * NBXSEG = 2048 from rfl] at hspan; exact hspan)
        hp (congrArg Fin.val hi) (congrArg Fin.val hj)
      rw [PAGE_SIZE_eq] at hge
      omega
    rw [hp1, hp2, ← hpg] at hpp
    exact hpte (by omega)
  · rw [hp1, hp2] at hpp
    rw [h4] at b1 b2 hpp
    exact hpg (by omega)

/-- The populated directory s1 is well formed. -/
theorem SysInv_s1 : SysInv s1 pm1 0 := by
  refine ⟨rfl, by decide, ?_, ?_, ?_, ?_, ?_,
    ⟨[], FreeChain.nil, List.nodup_nil, ?_, ?_, ?_, ?_⟩, List.nodup_nil, ?_, ?_⟩
  · intro j x hx
    fin_cases j <;> simp [s1, fin0, Fin.ext_iff] at hx ⊢ <;> omega
  · rintro pg ⟨j, x, i, h1, h2⟩
    fin_cases j <;> simp [s1, fin0, Fin.ext_iff] at h1
    subst h1
    fin_cases i <;> simp [s1, fin0, Fin.ext_iff] at h2 ⊢ <;> omega
  · intro j hx
    fin_cases j <;> simp [s1, fin0, Fin.ext_iff] at hx
  · intro j1 j2 x h1 h2
    fin_cases j1 <;> simp [s1, fin0, Fin.ext_iff] at h1
    fin_cases j2 <;> simp [s1, fin0, Fin.ext_iff] at h2
    decide
  · intro j1 x1 i1 j2 x2 i2 pg h1 h2 h3 h4
    fin_cases j1 <;> simp [s1, fin0, Fin.ext_iff] at h1
    fin_cases j2 <;> simp [s1, fin0, Fin.ext_iff] at h3
    subst h1
    subst h3
    fin_cases i1 <;> simp [s1, fin0, Fin.ext_iff] at h2
    fin_cases i2 <;> simp [s1, fin0, Fin.ext_iff] at h4
    exact ⟨by decide, by decide⟩
  · intro x hx
    cases hx
  · intro x hx
    cases hx
  · exact List.not_mem_nil 0
  · intro x hx
    exact List.not_mem_nil x
  · intro pg hpg
    cases hpg
  · intro pg hpg
    cases hpg

/-- Witness for C5 (amended): in s1 the addresses 0 and 32 (xor 32 =
PAGE_SIZE, within the decoded span) resolve to the distinct pointers 8 and 9. -/
theorem pte_slot_isolation_witness :
    pmap_pte_lookup s1 pm1 0 = some 8 ∧
    pmap_pte_lookup s1 pm1 32 = some 9 ∧ (8 : Nat) ≠ 9 :=
  ⟨by decide, by decide,
    pte_slot_isolation s1 pm1 0 0 32 8 9 SysInv_s1 (by decide) (by decide)
      (by decide) (by decide) (by decide)⟩

/-! ## Claim C9: monotonic directory growth -/

/-- Installing a leaf page pg into the NULL bottom slot k of the directory
intermediate stb preserves well-formedness and every established slot.  t2 is
t with any non-directory bookkeeping updated (same segmem and freelist head):
the popped-cache or charged-allocator state of the slow path of
pmap_pte_reserve. -/
theorem leaf_install_inv (t t2 : Sys) (pm : Pmap) (r stb pg : Nat)
    (j k : Fin PMAP_SEGTABSIZE) (inv : SysInv t pm r)
    (hseg : t2.segmem = t.segmem) (hfree : t2.free_segtab = t.free_segtab)
    (hstb : t.segmem r j = some stb) (hnone : t.segmem stb k = none)
    (hnp : t.next_page ≤ t2.next_page) (hpg : pg < t2.next_page)
    (hpgleaf : ¬ isLeaf t r pg)
    (hcn : t2.ptp_pgflist.Nodup)
    (hclt : ∀ q ∈ t2.ptp_pgflist, q < t2.next_page)
    (hcleaf : ∀ q ∈ t2.ptp_pgflist, ¬ isLeaf t r q ∧ q ≠ pg) :
    SysInv (setSeg t2 stb k (some pg)) pm r ∧
    (∀ x, (x = r ∨ isInter t r x) → ∀ i v, t.segmem x i = some v →
      (setSeg t2 stb k (some pg)).segmem x i = some v) := by
  have hrs : stb ≠ r := fun he => inv.root_not_inter j (he ▸ hstb)
  have hA : ∀ y, y ≠ stb →
      (setSeg t2 stb k (some pg)).segmem y = t.segmem y := by
    intro y hy
    rw [setSeg_segmem_other _ _ _ _ _ hy, hseg]
  have hB : ∀ ii : Fin PMAP_SEGTABSIZE, ii ≠ k →
      (setSeg t2 stb k (some pg)).segmem stb ii = t.segmem stb ii := by
    intro ii hii
    rw [setSeg_segmem]
    simp [hii, hseg]
  have hC : (setSeg t2 stb k (some pg)).segmem stb k = some pg := by
    rw [setSeg_segmem]
    simp
  have hAr : (setSeg t2 stb k (some pg)).segmem r = t.segmem r := hA r (Ne.symm hrs)
  have hleaf2 : ∀ (jj : Fin PMAP_SEGTABSIZE) (x : Nat)
      (ii : Fin PMAP_SEGTABSIZE) (q : Nat),
      (setSeg t2 stb k (some pg)).segmem r jj = some x →
      (setSeg t2 stb k (some pg)).segmem x ii = some q →
      t.segmem r jj = some x ∧
      ((x = stb ∧ ii = k ∧ q = pg) ∨ t.segmem x ii = some q) := by
    intro jj x ii q hj hx2
    rw [hAr] at hj
    refine ⟨hj, ?_⟩
    by_cases hx : x = stb
    · subst hx
      by_cases hik : ii = k
      · subst hik
        rw [hC] at hx2
        exact Or.inl ⟨rfl, rfl, (Option.some.injEq _ _ ▸ hx2).symm⟩
      · rw [hB ii hik] at hx2
        exact Or.inr hx2
    · rw [hA x hx] at hx2
      exact Or.inr hx2
  have hleafpres : ∀ (jj : Fin PMAP_SEGTABSIZE) (x : Nat)
      (ii : Fin PMAP_SEGTABSIZE) (q : Nat),
      t.segmem r jj = some x → t.segmem x ii = some q →
      (setSeg t2 stb k (some pg)).segmem x ii = some q := by
    intro jj x ii q hj hx2
    by_cases hx : x = stb
    · subst hx
      have hik : ii ≠ k := by
        intro he
        rw [he, hnone] at hx2
        cases hx2
      rw [hB ii hik]
      exact hx2
    · rw [hA x hx]
      exact hx2
  constructor
  · refine ⟨inv.root_eq, lt_of_lt_of_le inv.root_lt hnp, ?_, ?_, ?_, ?_, ?_,
      ?_, hcn, hclt, ?_⟩
    · intro jj x hj
      rw [hAr] at hj
      exact lt_of_lt_of_le (inv.inter_lt jj x hj) hnp
    · rintro q ⟨jj, x, ii, h1, h2⟩
      rcases (hleaf2 jj x ii q h1 h2).2 with ⟨hx, hik, hq⟩ | hold
      · rw [hq]
        exact hpg
      · exact lt_of_lt_of_le
          (inv.leaf_lt q ⟨jj, x, ii, (hleaf2 jj x ii q h1 h2).1, hold⟩) hnp
    · intro jj
      rw [hAr]
      exact inv.root_not_inter jj
    · intro j1 j2 x h1 h2
      rw [hAr] at h1 h2
      exact inv.inter_inj j1 j2 x h1 h2
    · intro j1 x1 i1 j2 x2 i2 q h1 h2 h3 h4
      obtain ⟨ho1, hc1⟩ := hleaf2 j1 x1 i1 q h1 h2
      obtain ⟨ho2, hc2⟩ := hleaf2 j2 x2 i2 q h3 h4
      rcases hc1 with ⟨hx1, hi1, hq1⟩ | hold1
      · rcases hc2 with ⟨hx2, hi2, hq2⟩ | hold2
        · rw [hx1] at ho1
          rw [hx2] at ho2
          exact ⟨inv.inter_inj j1 j2 stb ho1 ho2, hi1.trans hi2.symm⟩
        · exact absurd ⟨j2, x2, i2, ho2, hq1 ▸ hold2⟩ hpgleaf
      · rcases hc2 with ⟨hx2, hi2, hq2⟩ | hold2
        · exact absurd ⟨j1, x1, i1, ho1, hq2 ▸ hold1⟩ hpgleaf
        · exact inv.leaf_inj j1 x1 i1 j2 x2 i2 q ho1 hold1 ho2 hold2
    · obtain ⟨l, hc, hnd, hlt2, htail, hrl, hil⟩ := inv.chain
      have hstbl : stb ∉ l := hil stb ⟨j, hstb⟩
      have hmem : ∀ x ∈ l, (setSeg t2 stb k (some pg)).segmem x = t.segmem x := by
        intro x hx
        exact hA x (fun he => hstbl (he ▸ hx))
      refine ⟨l, ?_, hnd, ?_, ?_, hrl, ?_⟩
      · rw [show (setSeg t2 stb k (some pg)).free_segtab = t.free_segtab from hfree]
        exact FreeChain_congr t.segmem _ _ l hc hmem
      · intro x hx
        exact lt_of_lt_of_le (hlt2 x hx) hnp
      · intro x hx i2 hi2
        rw [hmem x hx]
        exact htail x hx i2 hi2
      · intro x hx
        rcases hx with ⟨jj, hj⟩
        rw [hAr] at hj
        exact hil x ⟨jj, hj⟩
    · intro q hq
      rintro ⟨jj, x, ii, h1, h2⟩
      obtain ⟨hqleaf, hqpg⟩ := hcleaf q hq
      rcases (hleaf2 jj x ii q h1 h2).2 with ⟨hx, hik, hqq⟩ | hold
      · exact hqpg hqq
      · exact hqleaf ⟨jj, x, ii, (hleaf2 jj x ii q h1 h2).1, hold⟩
  · intro x hx i v hv
    rcases hx with he | ⟨jj, hj⟩
    · rw [he, hAr]
      rw [he] at hv
      exact hv
    · exact hleafpres jj x i v hj hv

/-- Allocating a segtab and publishing it in the NULL top-level slot j of the
root preserves well-formedness and every established slot; the new
intermediate is all-null and installed at j. -/
theorem inter_install_inv (s : Sys) (pm : Pmap) (r : Nat)
    (j : Fin PMAP_SEGTABSIZE) (inv : SysInv s pm r)
    (hj : s.segmem r j = none) :
    SysInv (setSeg (pmap_segtab_alloc s).2 r j (some (pmap_segtab_alloc s).1)) pm r ∧
    (∀ x, (x = r ∨ isInter s r x) → ∀ i v, s.segmem x i = some v →
      (setSeg (pmap_segtab_alloc s).2 r j
        (some (pmap_segtab_alloc s).1)).segmem x i = some v) ∧
    (setSeg (pmap_segtab_alloc s).2 r j
      (some (pmap_segtab_alloc s).1)).segmem r j = some (pmap_segtab_alloc s).1 ∧
    allSlotsNull ((setSeg (pmap_segtab_alloc s).2 r j
      (some (pmap_segtab_alloc s).1)).segmem (pmap_segtab_alloc s).1) := by
  obtain ⟨l, hc, hnd, hlt2, htail, hrl, hil⟩ := inv.chain
  cases hf : s.free_segtab with
  | some h2 =>
    rw [hf] at hc
    cases hc with
    | cons x l2 hl =>
    have hmem2 : h2 ∈ h2 :: l2 := List.mem_cons_self h2 l2
    have hr2 : h2 ≠ r := fun he => hrl (he ▸ hmem2)
    have hni : ¬ isInter s r h2 := fun hi => hil h2 hi hmem2
    have hlt3 : h2 < s.next_page := hlt2 h2 hmem2
    have htl2 : tailSlotsNull (s.segmem h2) := htail h2 hmem2
    have hnd2 : h2 ∉ l2 := (List.nodup_cons.mp hnd).1
    have ha1 : (pmap_segtab_alloc s).1 = h2 := by
      simp [pmap_segtab_alloc, hf]
    have ha2 : (pmap_segtab_alloc s).2 =
        setSeg { s with free_segtab := s.segmem h2 fin0 } h2 fin0 none := by
      simp [pmap_segtab_alloc, hf]
    rw [ha1, ha2]
    set S := setSeg (setSeg { s with free_segtab := s.segmem h2 fin0 } h2 fin0 none)
      r j (some h2) with hS
    have hEy : ∀ y, y ≠ r → y ≠ h2 → S.segmem y = s.segmem y := by
      intro y hy1 hy2
      rw [hS, setSeg_segmem_other _ _ _ _ _ hy1, setSeg_segmem_other _ _ _ _ _ hy2]
    have hEr : ∀ jj : Fin PMAP_SEGTABSIZE, jj ≠ j → S.segmem r jj = s.segmem r jj := by
      intro jj hjj
      rw [hS, setSeg_segmem]
      simp [hjj]
      rw [setSeg_segmem_other _ _ _ _ _ hr2.symm]
    have hErj : S.segmem r j = some h2 := by
      rw [hS, setSeg_segmem]
      simp
    have hEh : allSlotsNull (S.segmem h2) := by
      intro ii
      rw [hS, setSeg_segmem_other _ _ _ _ _ hr2]
      rw [setSeg_segmem]
      by_cases hii : ii = fin0
      · simp [hii]
      · simp [hii]
        exact htl2 ii hii
    have hfree : S.free_segtab = s.segmem h2 fin0 := rfl
    have hnext : S.next_page = s.next_page := rfl
    have hptp : S.ptp_pgflist = s.ptp_pgflist := rfl
    have hleafS : ∀ (jj : Fin PMAP_SEGTABSIZE) (x2 : Nat)
        (ii : Fin PMAP_SEGTABSIZE) (q : Nat),
        S.segmem r jj = some x2 → S.segmem x2 ii = some q →
        jj ≠ j ∧ s.segmem r jj = some x2 ∧ s.segmem x2 ii = some q := by
      intro jj x2 ii q h1 h2e
      by_cases hjj : jj = j
      · rw [hjj, hErj] at h1
        have : x2 = h2 := by
          simpa using h1.symm
        rw [this, hEh ii] at h2e
        cases h2e
      · rw [hEr jj hjj] at h1
        have hx2r : x2 ≠ r := by
          intro he
          exact inv.root_not_inter jj (he ▸ h1)
        have hx2h : x2 ≠ h2 := by
          intro he
          exact hni ⟨jj, he ▸ h1⟩
        rw [hEy x2 hx2r hx2h] at h2e
        exact ⟨hjj, h1, h2e⟩
    refine ⟨⟨inv.root_eq, by rw [hnext]; exact inv.root_lt, ?_, ?_, ?_, ?_, ?_,
        ?_, by rw [hptp]; exact inv.cache_nodup, ?_, ?_⟩, ?_, hErj, hEh⟩
    · intro jj x2 hx2
      rw [hnext]
      by_cases hjj : jj = j
      · rw [hjj, hErj] at hx2
        have : x2 = h2 := by simpa using hx2.symm
        rw [this]
        exact hlt3
      · rw [hEr jj hjj] at hx2
        exact inv.inter_lt jj x2 hx2
    · rintro q ⟨jj, x2, ii, h1, h2e⟩
      obtain ⟨hjj, ho1, ho2⟩ := hleafS jj x2 ii q h1 h2e
      rw [hnext]
      exact inv.leaf_lt q ⟨jj, x2, ii, ho1, ho2⟩
    · intro jj
      by_cases hjj : jj = j
      · rw [hjj, hErj]
        intro he
        exact hr2 (by simpa using he)
      · rw [hEr jj hjj]
        exact inv.root_not_inter jj
    · intro j1 j2 x2 h1 h2e
      by_cases h1j : j1 = j <;> by_cases h2j : j2 = j
      · rw [h1j, h2j]
      · rw [h1j, hErj] at h1
        rw [hEr j2 h2j] at h2e
        have : x2 = h2 := by simpa using h1.symm
        exact absurd ⟨j2, this ▸ h2e⟩ hni
      · rw [h2j, hErj] at h2e
        rw [hEr j1 h1j] at h1
        have : x2 = h2 := by simpa using h2e.symm
        exact absurd ⟨j1, this ▸ h1⟩ hni
      · rw [hEr j1 h1j] at h1
        rw [hEr j2 h2j] at h2e
        exact inv.inter_inj j1 j2 x2 h1 h2e
    · intro j1 x1 i1 j2 x2 i2 q h1 h2e h3 h4
      obtain ⟨hj1, ho1, ho2⟩ := hleafS j1 x1 i1 q h1 h2e
      obtain ⟨hj2, ho3, ho4⟩ := hleafS j2 x2 i2 q h3 h4
      exact inv.leaf_inj j1 x1 i1 j2 x2 i2 q ho1 ho2 ho3 ho4
    · refine ⟨l2, ?_, (List.nodup_cons.mp hnd).2, ?_, ?_, ?_, ?_⟩
      · rw [hfree]
        refine FreeChain_congr s.segmem _ _ l2 hl ?_
        intro y hy
        have hyh : y ≠ h2 := fun he => hnd2 (he ▸ hy)
        have hyr : y ≠ r := fun he => hrl (he ▸ List.mem_cons_of_mem h2 hy)
        exact hEy y hyr hyh
      · intro y hy
        rw [hnext]
        exact hlt2 y (List.mem_cons_of_mem h2 hy)
      · intro y hy ii hii
        have hyh : y ≠ h2 := fun he => hnd2 (he ▸ hy)
        have hyr : y ≠ r := fun he => hrl (he ▸ List.mem_cons_of_mem h2 hy)
        rw [hEy y hyr hyh]
        exact htail y (List.mem_cons_of_mem h2 hy) ii hii
      · intro he
        exact hrl (List.mem_cons_of_mem h2 he)
      · intro y hy hym
        rcases hy with ⟨jj, hjj⟩
        by_cases hjj2 : jj = j
        · rw [hjj2, hErj] at hjj
          have : y = h2 := by simpa using hjj.symm
          exact hnd2 (this ▸ hym)
        · rw [hEr jj hjj2] at hjj
          exact hil y ⟨jj, hjj⟩ (List.mem_cons_of_mem h2 hym)
    · intro q hq
      rw [hptp] at hq
      rw [hnext]
      exact inv.cache_lt q hq
    · intro q hq
      rw [hptp] at hq
      rintro ⟨jj, x2, ii, h1, h2e⟩
      obtain ⟨hjj, ho1, ho2⟩ := hleafS jj x2 ii q h1 h2e
      exact inv.cache_not_leaf q hq ⟨jj, x2, ii, ho1, ho2⟩
    · intro x2 hx2 i v hv
      rcases hx2 with he | ⟨jj, hjj⟩
      · rw [he] at hv ⊢
        by_cases hij : i = j
        · rw [hij, hj] at hv
          cases hv
        · rw [hEr i hij]
          exact hv
      · have hxr : x2 ≠ r := fun he => inv.root_not_inter jj (he ▸ hjj)
        have hxh : x2 ≠ h2 := fun he => hni ⟨jj, he ▸ hjj⟩
        rw [hEy x2 hxr hxh]
        exact hv
  | none =>
    have ha1 : (pmap_segtab_alloc s).1 = s.next_page := by
      simp [pmap_segtab_alloc, hf]
    have ha2 : (pmap_segtab_alloc s).2 =
        { s with next_page := s.next_page + 1,
                 segmem := Function.update s.segmem s.next_page (fun _ => none) } := by
      simp [pmap_segtab_alloc, hf]
    rw [ha1, ha2]
    have hrn : r ≠ s.next_page := fun he => absurd (he ▸ inv.root_lt) (lt_irrefl _)
    set T : Sys := { s with next_page := s.next_page + 1,
                            segmem := Function.update s.segmem s.next_page
                              (fun _ => none) } with hT
    set S := setSeg T r j (some s.next_page) with hS
    have hEy : ∀ y, y ≠ r → y ≠ s.next_page → S.segmem y = s.segmem y := by
      intro y hy1 hy2
      rw [hS, setSeg_segmem_other _ _ _ _ _ hy1]
      show Function.update s.segmem s.next_page (fun _ => none) y = s.segmem y
      exact Function.update_noteq hy2 _ _
    have hEr : ∀ jj : Fin PMAP_SEGTABSIZE, jj ≠ j → S.segmem r jj = s.segmem r jj := by
      intro jj hjj
      rw [hS, setSeg_segmem]
      simp [hjj]
      show Function.update s.segmem s.next_page (fun _ => none) r jj = s.segmem r jj
      rw [Function.update_noteq hrn _ _]
    have hErj : S.segmem r j = some s.next_page := by
      rw [hS, setSeg_segmem]
      simp
    have hEh : allSlotsNull (S.segmem s.next_page) := by
      intro ii
      rw [hS, setSeg_segmem_other _ _ _ _ _ (Ne.symm hrn)]
      show Function.update s.segmem s.next_page (fun _ => none) s.next_page ii = none
      rw [Function.update_same]
    have hfree : S.free_segtab = s.free_segtab := rfl
    have hnext : S.next_page = s.next_page + 1 := rfl
    have hptp : S.ptp_pgflist = s.ptp_pgflist := rfl
    have hleafS : ∀ (jj : Fin PMAP_SEGTABSIZE) (x2 : Nat)
        (ii : Fin PMAP_SEGTABSIZE) (q : Nat),
        S.segmem r jj = some x2 → S.segmem x2 ii = some q →
        jj ≠ j ∧ s.segmem r jj = some x2 ∧ s.segmem x2 ii = some q := by
      intro jj x2 ii q h1 h2e
      by_cases hjj : jj = j
      · rw [hjj, hErj] at h1
        have : x2 = s.next_page := by simpa using h1.symm
        rw [this, hEh ii] at h2e
        cases h2e
      · rw [hEr jj hjj] at h1
        have hx2r : x2 ≠ r := fun he => inv.root_not_inter jj (he ▸ h1)
        have hx2n : x2 ≠ s.next_page := by
          intro he
          exact absurd (he ▸ inv.inter_lt jj x2 h1) (lt_irrefl _)
        rw [hEy x2 hx2r hx2n] at h2e
        exact ⟨hjj, h1, h2e⟩
    refine ⟨⟨inv.root_eq, by rw [hnext]; have := inv.root_lt; omega,
        ?_, ?_, ?_, ?_, ?_,
        ?_, by rw [hptp]; exact inv.cache_nodup, ?_, ?_⟩, ?_, hErj, hEh⟩
    · intro jj x2 hx2
      rw [hnext]
      by_cases hjj : jj = j
      · rw [hjj, hErj] at hx2
        have : x2 = s.next_page := by simpa using hx2.symm
        omega
      · rw [hEr jj hjj] at hx2
        have := inv.inter_lt jj x2 hx2
        omega
    · rintro q ⟨jj, x2, ii, h1, h2e⟩
      obtain ⟨hjj, ho1, ho2⟩ := hleafS jj x2 ii q h1 h2e
      rw [hnext]
      have := inv.leaf_lt q ⟨jj, x2, ii, ho1, ho2⟩
      omega
    · intro jj
      by_cases hjj : jj = j
      · rw [hjj, hErj]
        intro he
        have h2x : s.next_page = r := by simpa using he
        exact hrn h2x.symm
      · rw [hEr jj hjj]
        exact inv.root_not_inter jj
    · intro j1 j2 x2 h1 h2e
      by_cases h1j : j1 = j <;> by_cases h2j : j2 = j
      · rw [h1j, h2j]
      · rw [h1j, hErj] at h1
        rw [hEr j2 h2j] at h2e
        have he : x2 = s.next_page := by simpa using h1.symm
        exact absurd (he ▸ inv.inter_lt j2 x2 h2e) (lt_irrefl _)
      · rw [h2j, hErj] at h2e
        rw [hEr j1 h1j] at h1
        have he : x2 = s.next_page := by simpa using h2e.symm
        exact absurd (he ▸ inv.inter_lt j1 x2 h1) (lt_irrefl _)
      · rw [hEr j1 h1j] at h1
        rw [hEr j2 h2j] at h2e
        exact inv.inter_inj j1 j2 x2 h1 h2e
    · intro j1 x1 i1 j2 x2 i2 q h1 h2e h3 h4
      obtain ⟨hj1, ho1, ho2⟩ := hleafS j1 x1 i1 q h1 h2e
      obtain ⟨hj2, ho3, ho4⟩ := hleafS j2 x2 i2 q h3 h4
      exact inv.leaf_inj j1 x1 i1 j2 x2 i2 q ho1 ho2 ho3 ho4
    · refine ⟨l, ?_, hnd, ?_, ?_, hrl, ?_⟩
      · rw [hfree]
        refine FreeChain_congr s.segmem _ _ l hc ?_
        intro y hy
        have hyr : y ≠ r := fun he => hrl (he ▸ hy)
        have hyn : y ≠ s.next_page :=
          fun he => absurd (he ▸ hlt2 y hy) (lt_irrefl _)
        exact hEy y hyr hyn
      · intro y hy
        rw [hnext]
        have := hlt2 y hy
        omega
      · intro y hy ii hii
        have hyr : y ≠ r := fun he => hrl (he ▸ hy)
        have hyn : y ≠ s.next_page :=
          fun he => absurd (he ▸ hlt2 y hy) (lt_irrefl _)
        rw [hEy y hyr hyn]
        exact htail y hy ii hii
      · intro y hy hym
        rcases hy with ⟨jj, hjj⟩
        by_cases hjj2 : jj = j
        · rw [hjj2, hErj] at hjj
          have he : y = s.next_page := by simpa using hjj.symm
          exact absurd (he ▸ hlt2 y hym) (lt_irrefl _)
        · rw [hEr jj hjj2] at hjj
          exact hil y ⟨jj, hjj⟩ hym
    · intro q hq
      rw [hptp] at hq
      rw [hnext]
      have := inv.cache_lt q hq
      omega
    · intro q hq
      rw [hptp] at hq
      rintro ⟨jj, x2, ii, h1, h2e⟩
      obtain ⟨hjj, ho1, ho2⟩ := hleafS jj x2 ii q h1 h2e
      exact inv.cache_not_leaf q hq ⟨jj, x2, ii, ho1, ho2⟩
    · intro x2 hx2 i v hv
      rcases hx2 with he | ⟨jj, hjj⟩
      · rw [he] at hv ⊢
        by_cases hij : i = j
        · rw [hij, hj] at hv
          cases hv
        · rw [hEr i hij]
          exact hv
      · have hxr : x2 ≠ r := fun he => inv.root_not_inter jj (he ▸ hjj)
        have hxn : x2 ≠ s.next_page :=
          fun he => absurd (he ▸ inv.inter_lt jj x2 hjj) (lt_irrefl _)
        rw [hEy x2 hxr hxn]
        exact hv

/-- One pmap_pte_reserve call that returns (with or without a pointer)
preserves well-formedness and every established directory slot: no slot of
the root or of an intermediate that held a non-null pointer before the call
holds anything else after it. -/
theorem reserve_step_preserves (s : Sys) (pm : Pmap) (r va flags : Nat)
    (p : Option Nat) (s2 : Sys) (inv : SysInv s pm r)
    (h : pmap_pte_reserve s pm va flags = RRes.ret p s2) :
    SysInv s2 pm r ∧
    (∀ x, (x = r ∨ isInter s r x) → ∀ i v, s.segmem x i = some v →
      s2.segmem x i = some v) := by
  have hroot := inv.root_eq
  unfold pmap_pte_reserve at h
  rw [hroot] at h
  cases hlk : pmap_pte_lookup s pm va with
  | some pte =>
    rw [hlk] at h
    simp only [RRes.ret.injEq] at h
    rw [← h.2]
    exact ⟨inv, fun x hx i v hv => hv⟩
  | none =>
    rw [hlk] at h
    cases hro : s.segmem r (xsegIdx va) with
    | some stb =>
      simp only [hro] at h
      have hnone : s.segmem stb (segIdx va) = none := by
        have hlk2 := hlk
        unfold pmap_pte_lookup pmap_segmap at hlk2
        simp only [hroot, hro] at hlk2
        cases hq : s.segmem stb (segIdx va) with
        | none => rfl
        | some q => simp [hq] at hlk2
      cases hpl : s.ptp_pgflist with
      | cons pg rest =>
        rw [hpl] at h
        simp only [RRes.ret.injEq] at h
        rw [← h.2]
        have hnd := inv.cache_nodup
        rw [hpl] at hnd
        refine leaf_install_inv s { s with ptp_pgflist := rest } pm r stb pg
          (xsegIdx va) (segIdx va) inv rfl rfl hro hnone (le_refl _)
          (inv.cache_lt pg (by rw [hpl]; exact List.mem_cons_self pg rest))
          (inv.cache_not_leaf pg (by rw [hpl]; exact List.mem_cons_self pg rest))
          (List.nodup_cons.mp hnd).2 ?_ ?_
        · intro q hq
          exact inv.cache_lt q (by rw [hpl]; exact List.mem_cons_of_mem pg hq)
        · intro q hq
          refine ⟨inv.cache_not_leaf q
            (by rw [hpl]; exact List.mem_cons_of_mem pg hq), ?_⟩
          intro he
          exact (List.nodup_cons.mp hnd).1 (he ▸ hq)
      | nil =>
        rw [hpl] at h
        cases hb : s.pagealloc_budget with
        | zero =>
          simp only [pmap_pte_pagealloc, hb] at h
          by_cases hc : flags &&& PMAP_CANFAIL ≠ 0
          · rw [if_pos hc] at h
            simp only [RRes.ret.injEq] at h
            rw [← h.2]
            exact ⟨inv, fun x hx i v hv => hv⟩
          · rw [if_neg hc] at h
            cases h
        | succ b =>
          simp only [pmap_pte_pagealloc, hb] at h
          simp only [RRes.ret.injEq] at h
          rw [← h.2]
          refine leaf_install_inv s _ pm r stb s.next_page
            (xsegIdx va) (segIdx va) inv rfl rfl hro hnone
            (Nat.le_succ _) (Nat.lt_succ_self _) ?_
            inv.cache_nodup ?_ ?_
          · intro hleaf
            exact absurd (inv.leaf_lt _ hleaf) (lt_irrefl _)
          · intro q hq
            exact lt_trans (inv.cache_lt q hq) (Nat.lt_succ_self _)
          · intro q hq
            refine ⟨inv.cache_not_leaf q hq, ?_⟩
            intro he
            exact absurd (he ▸ inv.cache_lt q hq) (lt_irrefl _)
    | none =>
      simp only [hro] at h
      obtain ⟨inv1, pres1, hj1, hnull1⟩ := inter_install_inv s pm r (xsegIdx va) inv hro
      set s1 := setSeg (pmap_segtab_alloc s).2 r (xsegIdx va)
        (some (pmap_segtab_alloc s).1) with hs1
      have hinter1 : ∀ x, (x = r ∨ isInter s r x) → (x = r ∨ isInter s1 r x) := by
        intro x hx
        rcases hx with he | ⟨jj, hjj⟩
        · exact Or.inl he
        · exact Or.inr ⟨jj, pres1 r (Or.inl rfl) jj x hjj⟩
      cases hpl : s1.ptp_pgflist with
      | cons pg rest =>
        rw [hpl] at h
        simp only [RRes.ret.injEq] at h
        rw [← h.2]
        have hnd := inv1.cache_nodup
        rw [hpl] at hnd
        have key := leaf_install_inv s1 { s1 with ptp_pgflist := rest } pm r
          (pmap_segtab_alloc s).1 pg (xsegIdx va) (segIdx va) inv1 rfl rfl hj1
          (hnull1 (segIdx va)) (le_refl _)
          (inv1.cache_lt pg (by rw [hpl]; exact List.mem_cons_self pg rest))
          (inv1.cache_not_leaf pg (by rw [hpl]; exact List.mem_cons_self pg rest))
          (List.nodup_cons.mp hnd).2
          (fun q hq => inv1.cache_lt q
            (by rw [hpl]; exact List.mem_cons_of_mem pg hq))
          (fun q hq => ⟨inv1.cache_not_leaf q
              (by rw [hpl]; exact List.mem_cons_of_mem pg hq),
            fun he => (List.nodup_cons.mp hnd).1 (he ▸ hq)⟩)
        refine ⟨key.1, ?_⟩
        intro x hx i v hv
        exact key.2 x (hinter1 x hx) i v (pres1 x hx i v hv)
      | nil =>
        rw [hpl] at h
        cases hb : s1.pagealloc_budget with
        | zero =>
          simp only [pmap_pte_pagealloc, hb] at h
          by_cases hc : flags &&& PMAP_CANFAIL ≠ 0
          · rw [if_pos hc] at h
            simp only [RRes.ret.injEq] at h
            rw [← h.2]
            exact ⟨inv1, fun x hx i v hv => pres1 x hx i v hv⟩
          · rw [if_neg hc] at h
            cases h
        | succ b =>
          simp only [pmap_pte_pagealloc, hb] at h
          simp only [RRes.ret.injEq] at h
          rw [← h.2]
          have key := leaf_install_inv s1
            { s1 with next_page := s1.next_page + 1,
                      pagealloc_budget := b,
                      ptemem := Function.update s1.ptemem s1.next_page
                        (fun _ => 0) } pm r
            (pmap_segtab_alloc s).1 s1.next_page (xsegIdx va) (segIdx va) inv1
            rfl rfl hj1 (hnull1 (segIdx va)) (Nat.le_succ _) (Nat.lt_succ_self _)
            (fun hleaf => absurd (inv1.leaf_lt _ hleaf) (lt_irrefl _))
            inv1.cache_nodup
            (fun q hq => lt_trans (inv1.cache_lt q hq) (Nat.lt_succ_self _))
            (fun q hq => ⟨inv1.cache_not_leaf q hq,
              fun he => absurd (he ▸ inv1.cache_lt q hq) (lt_irrefl _)⟩)
          refine ⟨key.1, ?_⟩
          intro x hx i v hv
          exact key.2 x (hinter1 x hx) i v (pres1 x hx i v hv)

/-- C9: over any sequence of pmap_pte_lookup / pmap_pte_reserve operations on
a well-formed pmap (no teardown), once a segtab slot or a bottom-level leaf
slot of the directory holds a non-null pointer, it holds that same pointer
after every subsequent operation; no operation writes NULL, or a different
pointer, into a previously non-null slot.  pmap_pte_lookup is stateless by
construction, and a panicking reserve stops the machine, so no later
operation runs. -/
theorem reserve_monotonic_growth (pm : Pmap) (r : Nat) :
    ∀ (ops : List PmOp) (s : Sys), SysInv s pm r →
      ∀ x, (x = r ∨ isInter s r x) → ∀ i v, s.segmem x i = some v →
        (runOps pm s ops).segmem x i = some v := by
  intro ops
  induction ops with
  | nil =>
    intro s inv x hx i v hv
    exact hv
  | cons op rest ih =>
    intro s inv x hx i v hv
    cases op with
    | lookupOp va =>
      simp only [runOps]
      exact ih s inv x hx i v hv
    | reserveOp va fl =>
      simp only [runOps]
      cases hr : pmap_pte_reserve s pm va fl with
      | ret p s2 =>
        obtain ⟨inv2, pres⟩ := reserve_step_preserves s pm r va fl p s2 inv hr
        have hx2 : x = r ∨ isInter s2 r x := by
          rcases hx with he | ⟨jj, hjj⟩
          · exact Or.inl he
          · exact Or.inr ⟨jj, pres r (Or.inl rfl) jj x hjj⟩
        exact ih s2 inv2 x hx2 i v (pres x hx i v hv)
      | panic => exact hv
      | undef => exact hv

/-- Witness for C9: in s1 the root slot 0 holds intermediate 1; it still does
after a sequence of reserves (one hitting a new leaf, one a new intermediate)
and a lookup. -/
theorem reserve_monotonic_growth_witness :
    (runOps pm1 s1 [PmOp.reserveOp 160 0, PmOp.lookupOp 0,
      PmOp.reserveOp 1024 0]).segmem 0 fin0 = some 1 :=
  reserve_monotonic_growth pm1 0
    [PmOp.reserveOp 160 0, PmOp.lookupOp 0, PmOp.reserveOp 1024 0] s1 SysInv_s1
    0 (Or.inl rfl) fin0 1 (by decide)

/-! ## Claim C1: teardown with a callback -/

/-- Postcondition of the bottom-level sweep of releaseAux (vinc = NBSEG)
starting at slot i of segtab stb: only stb's slots at or after i change (to
NULL), the freelist and the fresh-page counter are untouched, the leaf-page
cache only grows, and every leaf page installed at or after slot i lands in
the cache. -/
structure LeafSweep (stb i : Nat) (s : Sys)
    (res : Sys × List (Nat × Nat × Nat)) : Prop where
  other : ∀ y, y ≠ stb → res.1.segmem y = s.segmem y
  low : ∀ j : Fin PMAP_SEGTABSIZE, j.val < i → res.1.segmem stb j = s.segmem stb j
  swept : ∀ j : Fin PMAP_SEGTABSIZE, i ≤ j.val → res.1.segmem stb j = none
  free : res.1.free_segtab = s.free_segtab
  fresh : res.1.next_page = s.next_page
  keep : ∀ pg ∈ s.ptp_pgflist, pg ∈ res.1.ptp_pgflist
  moved : ∀ j : Fin PMAP_SEGTABSIZE, i ≤ j.val → ∀ pg, s.segmem stb j = some pg →
    pg ∈ res.1.ptp_pgflist

/-- Sweep of a bottom-level segtab (vinc = NBSEG) by releaseAux: the swept
segtab's slots at or after the start index become NULL and their leaf pages
land in the cache; nothing else changes. -/
theorem releaseAux_leaf (cb : Option PteCb) (flags : Nat) :
    ∀ (fuel i : Nat) (stb va : Nat) (s : Sys) (res : Sys × List (Nat × Nat × Nat)),
      releaseAux cb flags fuel NBSEG stb va i s = res →
      PMAP_SEGTABSIZE - i < fuel →
      LeafSweep stb i s res := by
  intro fuel
  induction fuel with
  | zero =>
    intro i stb va s res hres hfuel
    exact absurd hfuel (Nat.not_lt_zero _)
  | succ fuel ih =>
    intro i stb va s res hres hfuel
    rw [releaseAux] at hres
    by_cases hi : i < PMAP_SEGTABSIZE
    · rw [dif_pos hi, if_neg (lt_irrefl NBSEG)] at hres
      cases hslot : s.segmem stb ⟨i, hi⟩ with
      | none =>
        simp only [hslot] at hres
        subst hres
        obtain ⟨k1, k2, k3, k4, k5, k6, k7⟩ :=
          ih (i + 1) stb (va + NBSEG) s _ rfl (sweep_fuel_step hi hfuel)
        refine ⟨k1, ?_, ?_, k4, k5, k6, ?_⟩
        · intro j hj
          exact k2 j (Nat.lt_succ_of_lt hj)
        · intro j hj
          by_cases hji : j.val = i
          · have he : j = ⟨i, hi⟩ := Fin.ext hji
            rw [k2 j (Nat.lt_succ_of_le (Nat.le_of_eq hji)), he, hslot]
          · exact k3 j (succ_le_of_le_ne hj hji)
        · intro j hj pg hpg
          by_cases hji : j.val = i
          · have he : j = ⟨i, hi⟩ := Fin.ext hji
            rw [he, hslot] at hpg
            cases hpg
          · exact k7 j (succ_le_of_le_ne hj hji) pg hpg
      | some pg =>
        simp only [hslot] at hres
        generalize hs2 : (match cb with
            | none => s
            | some f =>
              setLeafArr s pg (f va (va + NBSEG) flags (s.ptemem pg))) = s2 at hres
        have h2seg : s2.segmem = s.segmem := by
          cases cb <;> simp only [← hs2, setLeafArr]
        have h2free : s2.free_segtab = s.free_segtab := by
          cases cb <;> simp only [← hs2, setLeafArr]
        have h2next : s2.next_page = s.next_page := by
          cases cb <;> simp only [← hs2, setLeafArr]
        have h2ptp : s2.ptp_pgflist = s.ptp_pgflist := by
          cases cb <;> simp only [← hs2, setLeafArr]
        subst hres
        obtain ⟨k1, k2, k3, k4, k5, k6, k7⟩ := ih (i + 1) stb (va + NBSEG)
          (setSeg { s2 with ptp_pgflist := pg :: s2.ptp_pgflist } stb ⟨i, hi⟩ none)
          _ rfl (sweep_fuel_step hi hfuel)
        have hs3A : ∀ y, y ≠ stb →
            (setSeg { s2 with ptp_pgflist := pg :: s2.ptp_pgflist }
              stb ⟨i, hi⟩ none).segmem y = s.segmem y := by
          intro y hy
          rw [setSeg_segmem_other _ _ _ _ _ hy]
          show s2.segmem y = s.segmem y
          rw [h2seg]
        have hs3B : ∀ j : Fin PMAP_SEGTABSIZE, j ≠ ⟨i, hi⟩ →
            (setSeg { s2 with ptp_pgflist := pg :: s2.ptp_pgflist }
              stb ⟨i, hi⟩ none).segmem stb j = s.segmem stb j := by
          intro j hj
          rw [setSeg_segmem]
          simp only [if_pos rfl, if_neg hj]
          show s2.segmem stb j = s.segmem stb j
          rw [h2seg]
        have hs3C : (setSeg { s2 with ptp_pgflist := pg :: s2.ptp_pgflist }
            stb ⟨i, hi⟩ none).segmem stb ⟨i, hi⟩ = none := by
          rw [setSeg_segmem]
          simp
        have hs3ptp : (setSeg { s2 with ptp_pgflist := pg :: s2.ptp_pgflist }
            stb ⟨i, hi⟩ none).ptp_pgflist = pg :: s.ptp_pgflist := by
          rw [setSeg_ptp]
          show pg :: s2.ptp_pgflist = pg :: s.ptp_pgflist
          rw [h2ptp]
        refine ⟨?_, ?_, ?_, ?_, ?_, ?_, ?_⟩
        · intro y hy
          rw [k1 y hy, hs3A y hy]
        · intro j hj
          rw [k2 j (Nat.lt_succ_of_lt hj), hs3B j (fin_ne_of_val_lt hj)]
        · intro j hj
          by_cases hji : j.val = i
          · have he : j = ⟨i, hi⟩ := Fin.ext hji
            rw [he, k2 ⟨i, hi⟩ (Nat.lt_succ_self i), hs3C]
          · exact k3 j (succ_le_of_le_ne hj hji)
        · rw [k4, setSeg_free]
          show s2.free_segtab = s.free_segtab
          rw [h2free]
        · rw [k5, setSeg_next]
          show s2.next_page = s.next_page
          rw [h2next]
        · intro q hq
          refine k6 q ?_
          rw [hs3ptp]
          exact List.mem_cons_of_mem pg hq
        · intro j hj q hq
          by_cases hji : j.val = i
          · have he : j = ⟨i, hi⟩ := Fin.ext hji
            rw [he, hslot] at hq
            have hqpg : q = pg := Option.some.inj hq.symm
            refine k6 q ?_
            rw [hs3ptp, hqpg]
            exact List.mem_cons_self pg s.ptp_pgflist
          · refine k7 j (succ_le_of_le_ne hj hji) q ?_
            rw [hs3B j (fin_ne_of_val_ne hji)]
            exact hq
    · rw [dif_neg hi] at hres
      subst hres
      refine ⟨fun y hy => rfl, fun j hj => rfl, ?_, rfl, rfl,
        fun pg hpg => hpg, ?_⟩
      · intro j hj
        exact (no_high_slot hi hj).elim
      · intro j hj pg hpg
        exact (no_high_slot hi hj).elim

/-- Postcondition of the root sweep of releaseAux (vinc = NBXSEG) starting at
slot i with va = i * NBXSEG, relative to an initial freelist chain l: the
freelist becomes a chain l2 extending l with every child segtab installed at
or after slot i, the swept root slots are NULL, slots before i are untouched,
and every leaf page under a swept child lands in the leaf-page cache. -/
inductive TopSweep (r i : Nat) (s : Sys) (l : List Nat)
    (res : Sys × List (Nat × Nat × Nat)) : Prop where
  | mk (l2 : List Nat)
    (chain : FreeChain res.1.segmem res.1.free_segtab l2)
    (grow : ∀ y ∈ l, y ∈ l2)
    (put : ∀ j : Fin PMAP_SEGTABSIZE, i ≤ j.val → ∀ x, s.segmem r j = some x →
      x ∈ l2)
    (swept : ∀ j : Fin PMAP_SEGTABSIZE, i ≤ j.val → res.1.segmem r j = none)
    (low : ∀ j : Fin PMAP_SEGTABSIZE, j.val < i → res.1.segmem r j = s.segmem r j)
    (keep : ∀ q ∈ s.ptp_pgflist, q ∈ res.1.ptp_pgflist)
    (leaves : ∀ j : Fin PMAP_SEGTABSIZE, i ≤ j.val → ∀ x, s.segmem r j = some x →
      ∀ k : Fin PMAP_SEGTABSIZE, ∀ q, s.segmem x k = some q →
        q ∈ res.1.ptp_pgflist)

/-- Sweep of the root segtab (vinc = NBXSEG) by releaseAux, starting at slot
i with va = i * NBXSEG: every child segtab installed at or after slot i is
released to the freelist (which remains a chain extending the old one), every
leaf page under such a child lands in the leaf-page cache, the swept root
slots become NULL, and slots before i are untouched. -/
theorem releaseAux_top (cb : Option PteCb) (flags : Nat) :
    ∀ (fuel i : Nat) (r : Nat) (s : Sys) (l : List Nat)
      (res : Sys × List (Nat × Nat × Nat)),
      releaseAux cb flags fuel NBXSEG r (i * NBXSEG) i s = res →
      PMAP_SEGTABSIZE + 2 + (PMAP_SEGTABSIZE - i) ≤ fuel →
      FreeChain s.segmem s.free_segtab l →
      l.Nodup →
      r ∉ l →
      (∀ j : Fin PMAP_SEGTABSIZE, i ≤ j.val → ∀ x, s.segmem r j = some x →
        x ∉ l ∧ x ≠ r) →
      (∀ j1 j2 : Fin PMAP_SEGTABSIZE, i ≤ j1.val → i ≤ j2.val → ∀ x,
        s.segmem r j1 = some x → s.segmem r j2 = some x → j1 = j2) →
      TopSweep r i s l res := by
  intro fuel
  induction fuel with
  | zero =>
    intro i r s l res hres hfuel hc hnd hrl hch hinj
    exact (top_fuel_zero hfuel).elim
  | succ fuel ih =>
    intro i r s l res hres hfuel hc hnd hrl hch hinj
    rw [releaseAux] at hres
    by_cases hi : i < PMAP_SEGTABSIZE
    · rw [dif_pos hi, if_pos (by decide : NBSEG < NBXSEG)] at hres
      cases hslot : s.segmem r ⟨i, hi⟩ with
      | none =>
        simp only [hslot] at hres
        rw [← add_one_mul] at hres
        subst hres
        obtain ⟨l2, k1, k2, k3, k4, k5, k6, k7⟩ := ih (i + 1) r s l _ rfl
          (top_fuel_step hfuel hi) hc hnd hrl
          (fun j hj x hx => hch j (Nat.le_of_succ_le hj) x hx)
          (fun j1 j2 h1 h2 x hx1 hx2 =>
            hinj j1 j2 (Nat.le_of_succ_le h1) (Nat.le_of_succ_le h2) x hx1 hx2)
        refine ⟨l2, k1, k2, ?_, ?_, ?_, k6, ?_⟩
        · intro j hj x hx
          by_cases hji : j.val = i
          · have he : j = ⟨i, hi⟩ := Fin.ext hji
            rw [he, hslot] at hx
            cases hx
          · exact k3 j (succ_le_of_le_ne hj hji) x hx
        · intro j hj
          by_cases hji : j.val = i
          · have he : j = ⟨i, hi⟩ := Fin.ext hji
            rw [he, k5 ⟨i, hi⟩ (Nat.lt_succ_self i), hslot]
          · exact k4 j (succ_le_of_le_ne hj hji)
        · intro j hj
          exact k5 j (Nat.lt_succ_of_lt hj)
        · intro j hj x hx k q hq
          by_cases hji : j.val = i
          · have he : j = ⟨i, hi⟩ := Fin.ext hji
            rw [he, hslot] at hx
            cases hx
          · exact k7 j (succ_le_of_le_ne hj hji) x hx k q hq
      | some child =>
        simp only [hslot] at hres
        rw [show NBXSEG / NSEGPG = NBSEG from rfl] at hres
        have hidx : i * NBXSEG / NBSEG % PMAP_SEGTABSIZE = 0 := by
          simp only [NBXSEG_eq, NBSEG_eq, show PMAP_SEGTABSIZE = 4 from rfl]
          omega
        rw [hidx, ← add_one_mul] at hres
        obtain ⟨hcr, hcne⟩ := hch ⟨i, hi⟩ (Nat.le_refl i) child hslot
        -- the child leaf sweep
        obtain ⟨a1, a2, a3, a4, a5, a6, a7⟩ := releaseAux_leaf cb flags fuel 0
          child (i * NBXSEG) s
          (releaseAux cb flags fuel NBSEG child (i * NBXSEG) 0 s) rfl
          (top_fuel_leaf hfuel)
        set rec1 := releaseAux cb flags fuel NBSEG child (i * NBXSEG) 0 s
          with hrec1
        set s5 := setSeg (pmap_segtab_free rec1.1 child) r ⟨i, hi⟩ none with hs5
        -- pointwise facts about s5
        have hs5y : ∀ y, y ≠ r → y ≠ child → s5.segmem y = s.segmem y := by
          intro y h1 h2
          rw [hs5, setSeg_segmem_other _ _ _ _ _ h1,
            segtab_free_segmem _ _ _ h2]
          exact a1 y h2
        have hs5r : ∀ j : Fin PMAP_SEGTABSIZE, j ≠ ⟨i, hi⟩ →
            s5.segmem r j = s.segmem r j := by
          intro j hj
          rw [hs5, setSeg_segmem]
          simp only [if_pos rfl, if_neg hj]
          rw [segtab_free_segmem _ _ _ hcne.symm]
          exact congrFun (a1 r hcne.symm) j
        have hs5ri : s5.segmem r ⟨i, hi⟩ = none := by
          rw [hs5, setSeg_segmem]
          simp
        have hs5c0 : s5.segmem child fin0 = s.free_segtab := by
          rw [hs5, setSeg_segmem_other _ _ _ _ _ hcne]
          show (pmap_segtab_free rec1.1 child).segmem child fin0 = s.free_segtab
          rw [pmap_segtab_free, setSeg_segmem]
          simp only [if_pos rfl]
          exact a4
        have hs5free : s5.free_segtab = some child := rfl
        have hs5ptp : s5.ptp_pgflist = rec1.1.ptp_pgflist := rfl
        -- the extended chain on s5
        have hchain5 : FreeChain s5.segmem s5.free_segtab (child :: l) := by
          rw [hs5free]
          refine FreeChain.cons child l ?_
          rw [hs5c0]
          refine FreeChain_congr s.segmem _ _ l hc ?_
          intro y hy
          exact hs5y y (fun he => hrl (he ▸ hy)) (fun he => hcr (he ▸ hy))
        subst hres
        have key := ih (i + 1) r s5 (child :: l) _ rfl
          (top_fuel_step hfuel hi) hchain5
          (List.nodup_cons.mpr ⟨hcr, hnd⟩)
          (fun hmem => by
            rcases List.mem_cons.mp hmem with he | hm
            · exact hcne he.symm
            · exact hrl hm)
          ?_ ?_
        · obtain ⟨l2, k1, k2, k3, k4, k5, k6, k7⟩ := key
          refine ⟨l2, k1, ?_, ?_, ?_, ?_, ?_, ?_⟩
          · intro y hy
            exact k2 y (List.mem_cons_of_mem child hy)
          · intro j hj x hx
            by_cases hji : j.val = i
            · have he : j = ⟨i, hi⟩ := Fin.ext hji
              rw [he, hslot] at hx
              have hxc : x = child := Option.some.inj hx.symm
              rw [hxc]
              exact k2 child (List.mem_cons_self child l)
            · refine k3 j (succ_le_of_le_ne hj hji) x ?_
              rw [hs5r j (fin_ne_of_val_ne hji)]
              exact hx
          · intro j hj
            by_cases hji : j.val = i
            · have he : j = ⟨i, hi⟩ := Fin.ext hji
              rw [he, k5 ⟨i, hi⟩ (Nat.lt_succ_self i), hs5ri]
            · exact k4 j (succ_le_of_le_ne hj hji)
          · intro j hj
            rw [k5 j (Nat.lt_succ_of_lt hj), hs5r j (fin_ne_of_val_lt hj)]
          · intro q hq
            refine k6 q ?_
            rw [hs5ptp]
            exact a6 q hq
          · intro j hj x hx k q hq
            by_cases hji : j.val = i
            · have he : j = ⟨i, hi⟩ := Fin.ext hji
              rw [he, hslot] at hx
              have hxc : x = child := Option.some.inj hx.symm
              refine k6 q ?_
              rw [hs5ptp]
              refine a7 k (Nat.zero_le _) q ?_
              rw [← hxc]
              exact hq
            · have hjne : j ≠ ⟨i, hi⟩ := fin_ne_of_val_ne hji
              have hxc : x ≠ child := by
                intro he
                have := hinj j ⟨i, hi⟩ hj (Nat.le_refl i) child
                  (he ▸ hx) hslot
                rw [this] at hjne
                exact hjne rfl
              have hxr : x ≠ r := (hch j hj x hx).2
              refine k7 j (succ_le_of_le_ne hj hji) x ?_ k q ?_
              · rw [hs5r j hjne]
                exact hx
              · rw [hs5y x hxr hxc]
                exact hq
        · intro j hj x hx
          have hjne : j ≠ ⟨i, hi⟩ := fin_ne_of_succ_le hj
          rw [hs5r j hjne] at hx
          obtain ⟨hx1, hx2⟩ := hch j (Nat.le_of_succ_le hj) x hx
          refine ⟨?_, hx2⟩
          intro hmem
          rcases List.mem_cons.mp hmem with he | hm
          · have := hinj j ⟨i, hi⟩ (Nat.le_of_succ_le hj) (Nat.le_refl i) child
              (he ▸ hx) hslot
            rw [this] at hjne
            exact hjne rfl
          · exact hx1 hm
        · intro j1 j2 h1 h2 x hx1 hx2
          rw [hs5r j1 (fin_ne_of_succ_le h1)] at hx1
          rw [hs5r j2 (fin_ne_of_succ_le h2)] at hx2
          exact hinj j1 j2 (Nat.le_of_succ_le h1) (Nat.le_of_succ_le h2) x hx1 hx2
    · rw [dif_neg hi] at hres
      subst hres
      refine ⟨l, hc, fun y hy => hy, ?_, ?_, fun j hj => rfl,
        fun q hq => hq, ?_⟩
      · intro j hj x hx
        exact (no_high_slot hi hj).elim
      · intro j hj
        exact (no_high_slot hi hj).elim
      · intro j hj x hx k q hq
        exact (no_high_slot hi hj).elim

/-- C1 (amended): for every pmap whose root segtab is non-null (with
pm_minaddr 0, so the sweep covers the whole directory) and every non-null
callback that zeroes each leaf it is handed, after
pmap_segtab_destroy(P, cb, flags): every installed leaf page has been pushed
onto the leaf-page cache, every segtab of the directory EXCEPT the root has
been returned to the directory-node pool (the freelist chain), the root's
slots are all NULL — but, because the source passes func == NULL as free_stb,
the root segtab itself is NOT returned to the pool and pm_segtab still points
to it (the pmap is returned unchanged). -/
theorem pmap_segtab_destroy_callback_totality (s : Sys) (pm : Pmap)
    (r flags : Nat) (cb : PteCb) (inv : SysInv s pm r)
    (hmin : pm.pm_minaddr = 0)
    (hcb : ∀ a b c arr i, cb a b c arr i = 0) :
    (pmap_segtab_destroy s pm (some cb) flags).1 = pm ∧
    (∀ pg, isLeaf s r pg →
      pg ∈ (pmap_segtab_destroy s pm (some cb) flags).2.1.ptp_pgflist) ∧
    (∃ l2, FreeChain (pmap_segtab_destroy s pm (some cb) flags).2.1.segmem
        (pmap_segtab_destroy s pm (some cb) flags).2.1.free_segtab l2 ∧
      ∀ x, isInter s r x → x ∈ l2) ∧
    (∀ j, (pmap_segtab_destroy s pm (some cb) flags).2.1.segmem r j = none) := by
  have hd : pmap_segtab_destroy s pm (some cb) flags =
      (pm, (releaseAux (some cb) flags RELEASE_FUEL NBXSEG r 0 0 s).1,
        (releaseAux (some cb) flags RELEASE_FUEL NBXSEG r 0 0 s).2) := by
    rw [pmap_segtab_destroy]
    simp only [inv.root_eq, hmin, pmap_segtab_release, Option.isNone,
      Nat.zero_div, Nat.zero_mod, Bool.false_eq_true, if_false]
  obtain ⟨l, hc, hnd, hlt2, htail, hrl, hil⟩ := inv.chain
  obtain ⟨l2, k1, k2, k3, k4, k5, k6, k7⟩ := releaseAux_top (some cb) flags
    RELEASE_FUEL 0 r s l
    ((releaseAux (some cb) flags RELEASE_FUEL NBXSEG r 0 0 s).1,
     (releaseAux (some cb) flags RELEASE_FUEL NBXSEG r 0 0 s).2)
    (by rw [Nat.zero_mul]) (by decide) hc hnd hrl
    (fun j hj x hx => ⟨hil x ⟨j, hx⟩, fun he => inv.root_not_inter j (he ▸ hx)⟩)
    (fun j1 j2 h1 h2 x hx1 hx2 => inv.inter_inj j1 j2 x hx1 hx2)
  rw [hd]
  refine ⟨rfl, ?_, ⟨l2, k1, ?_⟩, ?_⟩
  · rintro pg ⟨j, x, k, h1, h2⟩
    exact k7 j (Nat.zero_le _) x h1 k pg h2
  · rintro x ⟨j, hj⟩
    exact k3 j (Nat.zero_le _) x hj
  · intro j
    exact k4 j (Nat.zero_le _)

/-- Witness for C1 (amended) on the populated directory s1: the pmap is
returned unchanged, the installed leaf page 2 is in the leaf-page cache, and
the root is empty. -/
theorem pmap_segtab_destroy_callback_totality_witness :
    (pmap_segtab_destroy s1 pm1 (some zeroCb) 0).1 = pm1 ∧
    2 ∈ (pmap_segtab_destroy s1 pm1 (some zeroCb) 0).2.1.ptp_pgflist ∧
    (∀ j, (pmap_segtab_destroy s1 pm1 (some zeroCb) 0).2.1.segmem 0 j = none) := by
  obtain ⟨w1, w2, w3, w4⟩ := pmap_segtab_destroy_callback_totality s1 pm1 0 0
    zeroCb SysInv_s1 rfl (fun a b c arr i => rfl)
  exact ⟨w1, w2 2 ⟨fin0, 1, fin0, by decide, by decide⟩, w4⟩
